import Mathlib

/-!
Verification of the chapter_05 terrain / HDRI analysis core of the
blender_python_tutorial repository.

The development shallowly embeds the algorithmic parts of the Python source:

* `src/chapter_05/src/model/utils/curve_generator.py`
  (interpolate_bezier, interpolate_bspline);
* `src/chapter_05/src/model/riverbed_generator.py`
  (select_riverbed_vertices, dig_riverbed, align_riverbank_edges);
* `src/chapter_05/src/model/water_generator.py`
  (delete_vertices_beyond_waterlines);
* `src/chapter_05/src/hdri/dome_with_hdri_and_sun_generator.py`
  (find_brightest_point_in_hdri, convert_hdri_uv_to_3d).

Exact rational arithmetic (ℚ) stands in for Python floats wherever the code
is pure arithmetic on finite data, so the embedded functions are executable;
real numbers (ℝ) are used where the claims concern trigonometry, planar
distance or smoothness of the proportional-editing falloff kernel.
-/

namespace BlenderRiver

/-! ## HDRI dome: convert_hdri_uv_to_3d -/

/-- Embedding of `DomeHdriGenerator.convert_hdri_uv_to_3d` (dome_with_hdri_and
sun_generator.py, lines 431-462).  `self.radius` is passed explicitly.  The
active lines of the source are
`longitude = (0.5 - u) * 2 * pi`, `latitude = v * pi`,
`x = radius * sin(latitude) * cos(longitude)`,
`y = radius * sin(latitude) * sin(longitude)`,
`z = radius * cos(latitude) + radius / 10`, followed by
`if z < 0: z = abs(z)`. -/
noncomputable def convert_hdri_uv_to_3d (radius : ℝ) (uv : ℝ × ℝ) : ℝ × ℝ × ℝ :=
  let u := uv.1
  let v := uv.2
  let longitude := (0.5 - u) * 2 * Real.pi
  let latitude := v * Real.pi
  let x := radius * Real.sin latitude * Real.cos longitude
  let y := radius * Real.sin latitude * Real.sin longitude
  let z := radius * Real.cos latitude + radius / 10
  if z < 0 then (x, y, |z|) else (x, y, z)

/-! ## CurveGenerator: interpolate_bezier / interpolate_bspline
(curve_generator.py) -/

/-- Embedding of `np.linspace(0, 1, n)`: `n` evenly spaced rationals from `0`
to `1` inclusive.  For `n = 1` the rational division-by-zero convention
`0 / 0 = 0` makes the formula agree with numpy's `[0.0]`. -/
def linspace01 (n : ℕ) : List ℚ :=
  (List.range n).map (fun i => (i : ℚ) / ((n : ℚ) - 1))

/-- Bernstein basis factor of `interpolate_bezier`, line 66 of
curve_generator.py: `binomial_coefficient(n, j) * (1 - t)**(n - j) * t**j`. -/
def bernstein (n j : ℕ) (t : ℚ) : ℚ :=
  (Nat.choose n j : ℚ) * (1 - t) ^ (n - j) * t ^ j

/-- Inner accumulation loop of `interpolate_bezier` (lines 65-67): starting
from the zero 2-vector, add `basis * control_points[j]` for each index `j`. -/
def bezierPoint (control : List (ℚ × ℚ)) (t : ℚ) : ℚ × ℚ :=
  let n := control.length - 1
  control.enum.foldl
    (fun acc p =>
      (acc.1 + bernstein n p.1 t * p.2.1, acc.2 + bernstein n p.1 t * p.2.2))
    (0, 0)

/-- Embedding of `np.interp` on a list of `(sample position, sample value)`
pairs, for increasing sample positions (the use in `interpolate_bezier`
passes the Bezier curve's y column): piecewise-linear interpolation, clamped
to the first / last sample value outside the sample range. -/
def npInterpPairs : List (ℚ × ℚ) → ℚ → ℚ
  | [], _ => 0
  | [(_, f0)], _ => f0
  | (x0, f0) :: (x1, f1) :: rest, x =>
      if x ≤ x0 then f0
      else if x ≤ x1 then f0 + (f1 - f0) * (x - x0) / (x1 - x0)
      else npInterpPairs ((x1, f1) :: rest) x

/-- Embedding of `np.interp(x, xp, fp)` for one query point `x`. -/
def npInterp (x : ℚ) (xp fp : List ℚ) : ℚ :=
  npInterpPairs (xp.zip fp) x

/-- Embedding of `CurveGenerator.interpolate_bezier` (curve_generator.py,
lines 54-76).  The control points are the input points with nonzero x; with
fewer than 2 of them the input is returned unchanged; otherwise the global
Bezier curve of degree `|control| - 1` is sampled at `len(input)` parameter
values and re-parameterized onto the original y values with `np.interp`. -/
def interpolate_bezier (input_list : List (ℚ × ℚ)) : List (ℚ × ℚ) :=
  let control_points := input_list.filter (fun p => p.1 ≠ 0)
  if control_points.length < 2 then input_list
  else
    let t_values := linspace01 input_list.length
    let curve_points := t_values.map (bezierPoint control_points)
    let original_y := input_list.map (fun p => p.2)
    let interp_x := original_y.map (fun y =>
      npInterp y (curve_points.map (fun p => p.2))
        (curve_points.map (fun p => p.1)))
    interp_x.zip original_y

/-- First-occurrence deduplication of `(x, y)` pairs by `x`, mirroring
`np.unique(x_full, return_index=True)` followed by re-sorting the first
occurrence indices into original order (curve_generator.py, lines 93-95). -/
def dedupFirst : List (ℚ × ℚ) → List ℚ → List (ℚ × ℚ)
  | [], _ => []
  | p :: rest, seen =>
      if p.1 ∈ seen then dedupFirst rest seen
      else p :: dedupFirst rest (p.1 :: seen)

/-- Modelled from the spec: `scipy.interpolate.interp1d` is an external
library routine, not part of this repository.  Spec 4.1: "if fewer than 4
unique points, use linear interpolation, else cubic interpolation", with
`fill_value="extrapolate"`.  The model evaluates piecewise-linear
interpolation with linear extrapolation past either end for both kinds; the
cubic evaluator's interior values are not reproduced (no theorem below
depends on them — every claim about `interpolate_bspline` exercises only the
degenerate guard, which returns before `interp1d` is called). -/
def interp1dEval : Bool → List (ℚ × ℚ) → ℚ → ℚ
  | _, [], _ => 0
  | _, [(_, f0)], _ => f0
  | cubic, (x0, f0) :: (x1, f1) :: rest, x =>
      if x ≤ x1 ∨ rest = [] then f0 + (f1 - f0) * (x - x0) / (x1 - x0)
      else interp1dEval cubic ((x1, f1) :: rest) x

/-- Embedding of `CurveGenerator.interpolate_bspline` (curve_generator.py,
lines 79-106).  `self.width` is passed explicitly.  The result is an
`Option`: on the empty list the source raises an `IndexError` before the
degenerate-input guard is reached (`np.array([])` has shape `(0,)`, so the
column slice `points[:, 0]` on line 82 is an invalid index), modelled as
`none`.  On a nonempty input the guard `len(non_zero_points) < 2` returns
the input unchanged; otherwise the nonzero points plus the two endpoint
y values pinned to x = 0 are deduplicated by first occurrence, interpolated
(`interp1d`, cubic iff at least 4 unique points), evaluated at every
original y and clipped to `[-0.75 * width, 0.75 * width]`. -/
def interpolate_bspline (width : ℚ) (input_list : List (ℚ × ℚ)) :
    Option (List (ℚ × ℚ)) :=
  match input_list with
  | [] => none
  | p0 :: tl =>
    let points := p0 :: tl
    let non_zero_points := points.filter (fun p => p.1 ≠ 0)
    if non_zero_points.length < 2 then some points
    else
      let xInterp := non_zero_points.map (fun p => p.2)
      let yInterp := non_zero_points.map (fun p => p.1)
      let x_full := [p0.2] ++ xInterp ++ [(points.getLastD (0, 0)).2]
      let y_full := [(0 : ℚ)] ++ yInterp ++ [(0 : ℚ)]
      let uniquePairs := dedupFirst (x_full.zip y_full) []
      let kindCubic := decide (4 ≤ uniquePairs.length)
      let y_new := points.map (fun p => interp1dEval kindCubic uniquePairs p.2)
      let max_x := (3 / 4 : ℚ) * width
      let y_new_clamped := y_new.map (fun v => min (max v (-max_x)) max_x)
      some (y_new_clamped.zip (points.map (fun p => p.2)))

/-! ## TerrainGrid vertices and nearest-y waterline lookup -/

/-- Grid vertex with a 3-D position, mirroring `vert.co` of the mesh host.
The coordinate type is a parameter: exact rationals for the classification
and trimming claims, reals for the falloff-displacement claims. -/
structure Vertex (α : Type) where
  x : α
  y : α
  z : α
deriving DecidableEq, Repr

/-- Embedding of `np.argmin` on a list of rationals: index of the first
occurrence of the minimum (numpy documents first-occurrence tie-breaking;
the strict comparison in the scan realizes it).  Empty input yields `0`
(the source would raise there; theorems below assume nonempty waterlines). -/
def argminIdx (l : List ℚ) : ℕ :=
  (l.enum.foldl (fun best p => if p.2 < best.2 then p else best)
    (0, l.headD 0)).1

/-- Nearest-y boundary lookup shared by `select_riverbed_vertices`
(riverbed_generator.py, lines 97-103) and
`delete_vertices_beyond_waterlines` (water_generator.py, lines 175-181):
take the waterline sample whose y coordinate is closest to the vertex's y
(`np.argmin` over absolute differences, first minimum wins) and return that
sample's x coordinate. -/
def nearestYx (path : List (ℚ × ℚ)) (y0 : ℚ) : ℚ :=
  ((path.get? (argminIdx (path.map (fun p => |p.2 - y0|)))).getD (0, 0)).1

/-! ## RegionClassifier: select_riverbed_vertices -/

/-- Bed test of `select_riverbed_vertices`, line 106 of
riverbed_generator.py: `riverbed_left_x < vert.co.x < riverbed_right_x`. -/
def classifyBed (left right : List (ℚ × ℚ)) (v : Vertex ℚ) : Bool :=
  decide (nearestYx left v.y < v.x ∧ v.x < nearestYx right v.y)

/-- Loop of `select_riverbed_vertices` (lines 92-109) over the enumerated
vertices: each index is appended to the riverbed list if the bed test holds,
else to the riverbank list.  The incoming state carries the instance lists
`self.riverbed_indices` / `self.riverbank_indices`, which the method never
clears. -/
def selectAux (left right : List (ℚ × ℚ)) :
    List ℕ × List ℕ → List (ℕ × Vertex ℚ) → List ℕ × List ℕ
  | st, [] => st
  | st, p :: rest =>
      if classifyBed left right p.2 then
        selectAux left right (st.1 ++ [p.1], st.2) rest
      else
        selectAux left right (st.1, st.2 ++ [p.1]) rest

/-- Embedding of `RiverbedGenerator.select_riverbed_vertices`
(riverbed_generator.py, lines 66-117), restricted to its classification
loop: the waterlines are taken as inputs (the source generates them from
random control sets just before the loop), and the pair of accumulated
index lists is threaded explicitly in place of the mutable instance
attributes initialized to `[]` in `__init__` (lines 31-32). -/
def select_riverbed_vertices (st : List ℕ × List ℕ) (grid : List (Vertex ℚ))
    (left right : List (ℚ × ℚ)) : List ℕ × List ℕ :=
  selectAux left right st grid.enum

/-! ## WaterPlaneTrimmer: delete_vertices_beyond_waterlines -/

/-- Outlier test of `delete_vertices_beyond_waterlines`
(water_generator.py, line 184): the vertex lies strictly left of the left
boundary lookup or strictly right of the right boundary lookup. -/
def outlierVertex (left right : List (ℚ × ℚ)) (v : Vertex ℚ) : Bool :=
  decide (v.x < nearestYx left v.y ∨ nearestYx right v.y < v.x)

/-- Embedding of `WaterGenerator.delete_vertices_beyond_waterlines`
(water_generator.py, lines 149-203): the loop collects every outlier vertex
and `bmesh.ops.delete` removes exactly those from the mesh, so the
surviving grid is the sublist of non-outlier vertices in original order. -/
def delete_vertices_beyond_waterlines (grid : List (Vertex ℚ))
    (left right : List (ℚ × ℚ)) : List (Vertex ℚ) :=
  grid.filter (fun v => ! outlierVertex left right v)

/-! ## FalloffDisplacer: proportional editing with the SMOOTH falloff

`dig_riverbed`, `raise_riverbank` and `align_riverbank_edges`
(riverbed_generator.py) all issue
`bpy.ops.transform.translate(value=(0, 0, dz), use_proportional_edit=True,
proportional_edit_falloff='SMOOTH', proportional_size=radius)` with exactly
one vertex selected.  The proportional-editing kernel itself lives in the
external host, not in this repository, so it is modelled from the spec. -/

/-- Modelled from the spec: the SMOOTH proportional-editing falloff shape of
the external host, a smooth (C1) cubic ease `3 t^2 - 2 t^3` on the
normalized coordinate `t = 1 - distance / radius`. -/
noncomputable def smoothKernel (t : ℝ) : ℝ :=
  3 * t ^ 2 - 2 * t ^ 3

/-- Modelled from the spec (4.4): the falloff weight at planar distance `d`
for radius `r`: `smoothKernel (1 - d / r)` inside the radius and `0` at and
beyond it. -/
noncomputable def falloff (d r : ℝ) : ℝ :=
  if d < r then smoothKernel (1 - d / r) else 0

/-- Planar (x, y) distance between two grid vertices; the spec measures the
proportional-editing distance in the grid plane. -/
noncomputable def planarDist (a b : Vertex ℝ) : ℝ :=
  Real.sqrt ((a.x - b.x) ^ 2 + (a.y - b.y) ^ 2)

/-- Modelled from the spec (4.4): effect of one proportional edit on one
vertex: its elevation changes by `dz` scaled by the falloff weight at its
planar distance from the target; x and y are untouched. -/
noncomputable def displaceVertex (target : Vertex ℝ) (dz r : ℝ)
    (v : Vertex ℝ) : Vertex ℝ :=
  Vertex.mk v.x v.y (v.z + dz * falloff (planarDist v target) r)

/-- Modelled from the spec (4.4): one `FalloffDisplacer.apply` call — the
whole grid displaced around one target vertex. -/
noncomputable def falloff_displace (grid : List (Vertex ℝ)) (target : Vertex ℝ)
    (dz r : ℝ) : List (Vertex ℝ) :=
  grid.map (displaceVertex target dz r)

/-- Pointwise derivative of the full falloff in its distance argument: the
polynomial derivative inside the radius, `0` at and beyond it. -/
noncomputable def falloffDeriv (r d : ℝ) : ℝ :=
  if d ≤ r then (6 * (1 - d / r) ^ 2 - 6 * (1 - d / r)) / r else 0

/-! ## BoundaryAligner: align_riverbank_edges -/

/-- One iteration of the `align_riverbank_edges` loop
(riverbed_generator.py, lines 251-270): select boundary vertex `i`, read its
current elevation, and issue a proportional translate by `(0, 0, -z)` with
the SMOOTH falloff of radius `r` (kernel modelled from the spec); an
out-of-range index leaves the grid unchanged (the source only ever visits
existing vertices). -/
noncomputable def align_step (grid : List (Vertex ℝ)) (r : ℝ) (i : ℕ) :
    List (Vertex ℝ) :=
  match grid[i]? with
  | none => grid
  | some t => falloff_displace grid t (-t.z) r

/-- Embedding of `RiverbedGenerator.align_riverbank_edges`
(riverbed_generator.py, lines 229-275): one pass over the boundary vertex
indices (the source gathers every vertex with `v.is_boundary`; that index
list is taken as an input here), aligning each in turn to z = 0 with a
proportional edit of radius `proportional_radius`. -/
noncomputable def align_riverbank_edges (grid : List (Vertex ℝ))
    (bIdx : List ℕ) (r : ℝ) : List (Vertex ℝ) :=
  match bIdx with
  | [] => grid
  | i :: rest => align_riverbank_edges (align_step grid r i) rest r

/-! ## HDRIAnalyzer: find_brightest_point_in_hdri
(dome_with_hdri_and_sun_generator.py, lines 365-428)

The buffer is modelled as a function from (row, column) pixel coordinates to
RGBA rationals, in the top-left orientation the source establishes with
`np.flipud` before scanning (line 385). -/

/-- RGBA float pixel. -/
structure Pixel where
  r : ℚ
  g : ℚ
  b : ℚ
  a : ℚ

/-- Brightness contribution of one pixel, line 405 of the source:
`pixels[nv, nu, 0] + pixels[nv, nu, 1] + pixels[nv, nu, 2]`. -/
def pixSum (px : ℤ → ℤ → Pixel) (nv nu : ℤ) : ℚ :=
  (px nv nu).r + (px nv nu).g + (px nv nu).b

/-- Window offsets `range(-2, 2)` of the 4x4 neighborhood loops
(lines 397-398): note the asymmetric range, `-2` to `1` inclusive. -/
def windowOffsets : List ℤ :=
  [-2, -1, 0, 1]

/-- Inner window loop (`for dv in range(-2, 2)`, lines 398-406) for a fixed
horizontal neighbor `nu`: accumulate the brightness sum and the in-bounds
sample count. -/
def windowCol (px : ℤ → ℤ → Pixel) (W H : ℕ) (nu v : ℤ) (acc : ℚ × ℕ) :
    ℚ × ℕ :=
  windowOffsets.foldl
    (fun acc dv =>
      let nv := v + dv
      if 0 ≤ nu ∧ nu < (W : ℤ) ∧ 0 ≤ nv ∧ nv < (H : ℤ) then
        (acc.1 + pixSum px nv nu, acc.2 + 1)
      else acc)
    acc

/-- Full 4x4 window accumulation (`for du in range(-2, 2)` outer loop,
lines 393-406): brightness sum and in-bounds count of the neighborhood of
pixel `(u, v)`. -/
def windowCalc (px : ℤ → ℤ → Pixel) (W H : ℕ) (u v : ℤ) : ℚ × ℕ :=
  windowOffsets.foldl (fun acc du => windowCol px W H (u + du) v acc) (0, 0)

/-- One step of the scan (lines 408-420): if the window has in-bounds
samples, average the brightness, and if the mean strictly exceeds the
running maximum, record it together with the pixel's normalized UV
`(u / (W-1), v / (H-1))`; ties and smaller means leave the state alone. -/
def scanStep (px : ℤ → ℤ → Pixel) (W H : ℕ) (st : ℚ × (ℚ × ℚ))
    (p : ℕ × ℕ) : ℚ × (ℚ × ℚ) :=
  let bc := windowCalc px W H (p.2 : ℤ) (p.1 : ℤ)
  if 0 < bc.2 then
    let mean := bc.1 / (bc.2 : ℚ)
    if st.1 < mean then
      (mean, ((p.2 : ℚ) / ((W : ℚ) - 1), (p.1 : ℚ) / ((H : ℚ) - 1)))
    else st
  else st

/-- The raster scan (lines 390-420): rows `v` from `2` to `H - 3`, columns
`u` from `2` to `W - 3`, starting from `max_brightness = -1` and
`brightest_uv = (0, 0)`. -/
def scanRows (px : ℤ → ℤ → Pixel) (W H : ℕ) : ℚ × (ℚ × ℚ) :=
  (List.range' 2 (H - 4)).foldl
    (fun st v =>
      (List.range' 2 (W - 4)).foldl (fun st u => scanStep px W H st (v, u)) st)
    (-1, (0, 0))

/-- Embedding of `DomeHdriGenerator.find_brightest_point_in_hdri`
(lines 365-428): run the scan; if a strictly positive maximum was found
return `(uv, max)`, else fall back to the default `((0.5, 0.5), 0)` (the
warning branch of lines 425-428). -/
def find_brightest_point_in_hdri (px : ℤ → ℤ → Pixel) (W H : ℕ) :
    (ℚ × ℚ) × ℚ :=
  let res := scanRows px W H
  if 0 < res.1 then (res.2, res.1) else ((1 / 2, 1 / 2), 0)

/-- Synthetic test buffer: a single 4x4 block of constant pixel value `c`
covering rows and columns 48 to 51 (the 4x4 neighborhood whose center, in
the source's `range(-2, 2)` window convention, is pixel `(50, 50)`), zero
everywhere else. -/
def syntheticPx (c : Pixel) : ℤ → ℤ → Pixel :=
  fun nv nu =>
    if 48 ≤ nu ∧ nu ≤ 51 ∧ 48 ≤ nv ∧ nv ≤ 51 then c else Pixel.mk 0 0 0 0

/-- Overlap indicator sum of the 4-offset window against the block interval
`[48, 51]` along one axis: how many of `w - 2, w - 1, w, w + 1` land in the
block. -/
def colOv (w : ℤ) : ℚ :=
  (if 48 ≤ w + -2 ∧ w + -2 ≤ 51 then (1 : ℚ) else 0) +
    (if 48 ≤ w + -1 ∧ w + -1 ≤ 51 then (1 : ℚ) else 0) +
    (if 48 ≤ w + 0 ∧ w + 0 ≤ 51 then (1 : ℚ) else 0) +
    (if 48 ≤ w + 1 ∧ w + 1 ≤ 51 then (1 : ℚ) else 0)

/-- All-zero test buffer. -/
def zeroPx : ℤ → ℤ → Pixel :=
  fun _ _ => Pixel.mk 0 0 0 0

/-! ## Theorems -/

/-- Evaluation of `convert_hdri_uv_to_3d` at the equator / reference
longitude sample `(u, v) = (0.5, 0.5)` with `radius = 100`: the longitude is
`0`, the colatitude is `π/2`, so the result is exactly `(100, 0, 10)`. -/
lemma convert_hdri_uv_to_3d_center_eval :
    convert_hdri_uv_to_3d 100 (0.5, 0.5) = (100, 0, 10) := by
  unfold convert_hdri_uv_to_3d
  have hlat : (0.5 : ℝ) * Real.pi = Real.pi / 2 := by ring
  have hlong : ((0.5 : ℝ) - 0.5) * 2 * Real.pi = 0 := by ring
  simp only [hlat, hlong, Real.sin_pi_div_two, Real.cos_pi_div_two,
    Real.sin_zero, Real.cos_zero]
  norm_num

/-- C5 counterexample: the claim asserts that `uv_to_direction(0.5, 0.5,
radius=100)` has `x ≈ 0` and `y ≈ 0`.  In the code the colatitude at
`v = 0.5` is `π/2` (the equator), so `x = 100 * sin(π/2) * cos(0) = 100`:
the x component equals the full dome radius and is not within any floating
tolerance of `0`. -/
theorem convert_hdri_uv_to_3d_center_x_is_radius :
    (convert_hdri_uv_to_3d 100 (0.5, 0.5)).1 = 100 ∧
    ¬ |(convert_hdri_uv_to_3d 100 (0.5, 0.5)).1| ≤ 1 := by
  rw [convert_hdri_uv_to_3d_center_eval]
  norm_num

/-- C5 (amended): `convert_hdri_uv_to_3d` at `u = 0.5`, `v = 0.5` with
`radius = 100` returns exactly the point `(100, 0, 10)`: its `z` is
`100 * cos(π/2) + 100/10 = 10` and its `y` is `0` as the claim states, but
its `x` is `100` (the point sits on the equator at the reference longitude,
at full radius along x), not `≈ 0`. -/
theorem convert_hdri_uv_to_3d_center :
    convert_hdri_uv_to_3d 100 (0.5, 0.5) = (100, 0, 10) :=
  convert_hdri_uv_to_3d_center_eval

/-- C7: for every control set with at least 2 nonzero-x points,
`interpolate_bezier` returns one output point per input sample: the output
has the same length as the input, and the output y column is exactly the
input y column (the source copies `original_y` into the result, so the
y values agree exactly, not merely within floating tolerance). -/
theorem interpolate_bezier_length_and_y (input_list : List (ℚ × ℚ))
    (h : 2 ≤ (input_list.filter (fun p => p.1 ≠ 0)).length) :
    (interpolate_bezier input_list).length = input_list.length ∧
    (interpolate_bezier input_list).map (fun p => p.2) =
      input_list.map (fun p => p.2) := by
  unfold interpolate_bezier
  rw [if_neg (by omega)]
  constructor
  · simp
  · rw [List.map_snd_zip]
    simp

/-- C7 witness: the concrete control set `[(1, 0), (2, 1)]` has two nonzero
points, and `interpolate_bezier` preserves its length and y column. -/
theorem interpolate_bezier_length_and_y_witness :
    2 ≤ (([(1, 0), (2, 1)] : List (ℚ × ℚ)).filter
        (fun p => p.1 ≠ 0)).length ∧
    (interpolate_bezier [(1, 0), (2, 1)]).length =
      ([(1, 0), (2, 1)] : List (ℚ × ℚ)).length ∧
    (interpolate_bezier [(1, 0), (2, 1)]).map (fun p => p.2) =
      ([(1, 0), (2, 1)] : List (ℚ × ℚ)).map (fun p => p.2) :=
  ⟨by decide, interpolate_bezier_length_and_y [(1, 0), (2, 1)] (by decide)⟩

/-- C8: degenerate curve inputs (fewer than 2 nonzero-x points).  Every
NONEMPTY degenerate input is returned unmodified by both interpolators, and
`interpolate_bezier` also returns the empty list unchanged; but
`interpolate_bspline` on the empty list raises an `IndexError` (modelled as
`none`): `np.array([])` is one-dimensional, so the column slice
`points[:, 0]` on line 82 of curve_generator.py fails before the
`len(non_zero_points) < 2` guard on line 84 is reached. -/
theorem curve_degenerate_input (width : ℚ) :
    (∀ l : List (ℚ × ℚ), l ≠ [] →
      (l.filter (fun p => p.1 ≠ 0)).length < 2 →
      interpolate_bezier l = l ∧ interpolate_bspline width l = some l) ∧
    interpolate_bezier [] = [] ∧
    interpolate_bspline width [] = none := by
  refine ⟨fun l hne hdeg => ⟨?_, ?_⟩, rfl, rfl⟩
  · unfold interpolate_bezier
    rw [if_pos hdeg]
  · match l with
    | [] => exact absurd rfl hne
    | p0 :: tl =>
      simp only [interpolate_bspline]
      rw [if_pos hdeg]

/-- C8 witness: the all-sentinel control set `[(0, 0), (0, 1)]` (no nonzero
x at all) is returned unchanged by both interpolators. -/
theorem curve_degenerate_input_witness :
    ([(0, 0), (0, 1)] : List (ℚ × ℚ)) ≠ [] ∧
    (([(0, 0), (0, 1)] : List (ℚ × ℚ)).filter
        (fun p => p.1 ≠ 0)).length < 2 ∧
    interpolate_bezier [(0, 0), (0, 1)] = [(0, 0), (0, 1)] ∧
    interpolate_bspline 10 [(0, 0), (0, 1)] = some [(0, 0), (0, 1)] := by
  refine ⟨by decide, by decide, ?_, ?_⟩
  · exact ((curve_degenerate_input 10).1 [(0, 0), (0, 1)] (by decide)
      (by decide)).1
  · exact ((curve_degenerate_input 10).1 [(0, 0), (0, 1)] (by decide)
      (by decide)).2

/-- Characterization of the riverbed list produced by the classification
loop: the incoming list followed by the indices of the pairs passing the
bed test, in scan order. -/
lemma selectAux_fst (left right : List (ℚ × ℚ)) (st : List ℕ × List ℕ)
    (ps : List (ℕ × Vertex ℚ)) :
    (selectAux left right st ps).1 =
      st.1 ++ (ps.filter (fun p => classifyBed left right p.2)).map
        (fun p => p.1) := by
  induction ps generalizing st with
  | nil => simp [selectAux]
  | cons p rest ih =>
    by_cases h : classifyBed left right p.2
    · rw [selectAux, if_pos h, ih]
      simp [List.filter_cons, h]
    · rw [selectAux, if_neg h, ih]
      simp [List.filter_cons, h]

/-- Characterization of the riverbank list produced by the classification
loop: the incoming list followed by the indices of the pairs failing the
bed test, in scan order. -/
lemma selectAux_snd (left right : List (ℚ × ℚ)) (st : List ℕ × List ℕ)
    (ps : List (ℕ × Vertex ℚ)) :
    (selectAux left right st ps).2 =
      st.2 ++ (ps.filter (fun p => ! classifyBed left right p.2)).map
        (fun p => p.1) := by
  induction ps generalizing st with
  | nil => simp [selectAux]
  | cons p rest ih =>
    by_cases h : classifyBed left right p.2
    · rw [selectAux, if_pos h, ih]
      simp [List.filter_cons, h]
    · rw [selectAux, if_neg h, ih]
      simp [List.filter_cons, h]

/-- Complementary filters of an enumerated list contribute complementary
index counts: over any pair list, the count of an index among the pairs
passing a Boolean test plus its count among the pairs failing it equals its
count among all first components. -/
lemma count_filter_split (ps : List (ℕ × Vertex ℚ))
    (q : ℕ × Vertex ℚ → Bool) (i : ℕ) :
    ((ps.filter q).map (fun p => p.1)).count i +
      ((ps.filter (fun p => ! q p)).map (fun p => p.1)).count i =
      (ps.map (fun p => p.1)).count i := by
  induction ps with
  | nil => simp
  | cons p rest ih =>
    by_cases h : q p
    · by_cases hip : i = p.1
      · subst hip
        simp [List.filter_cons, h, List.count_cons] at ih ⊢
        omega
      · simp [List.filter_cons, h, hip, List.count_cons, ih]
    · by_cases hip : i = p.1
      · subst hip
        simp [List.filter_cons, h, List.count_cons] at ih ⊢
        omega
      · simp [List.filter_cons, h, hip, List.count_cons, ih]

/-- Every in-range vertex index is appended exactly once across the two
index lists by one classification pass. -/
lemma select_adds_once (st : List ℕ × List ℕ) (grid : List (Vertex ℚ))
    (left right : List (ℚ × ℚ)) (i : ℕ) (hi : i < grid.length) :
    ((select_riverbed_vertices st grid left right).1.count i +
        (select_riverbed_vertices st grid left right).2.count i) =
      (st.1.count i + st.2.count i) + 1 := by
  unfold select_riverbed_vertices
  rw [selectAux_fst, selectAux_snd, List.count_append, List.count_append]
  have hsplit := count_filter_split grid.enum
    (fun p => classifyBed left right p.2) i
  have henum : (grid.enum.map (fun p : ℕ × Vertex ℚ => p.1)).count i = 1 := by
    have : grid.enum.map (fun p : ℕ × Vertex ℚ => p.1) =
        List.range grid.length := by simp
    rw [this]
    exact List.count_eq_one_of_mem (List.nodup_range _) (List.mem_range.mpr hi)
  omega

/-- C2 counterexample: the claim asserts that a vertex whose x equals its
local boundary x belongs to neither the bed set nor the bank set.  In the
code the `else` branch of `riverbed_left_x < vert.co.x < riverbed_right_x`
catches such a vertex, so it is appended to `riverbank_indices`: with left
waterline `[(0, 1)]`, right waterline `[(2, 1)]` and the single vertex
`(0, 1, 0)` (whose x equals the left boundary x = 0), index 0 lands in the
bank list. -/
theorem select_riverbed_boundary_vertex_in_bank :
    (Vertex.mk (0 : ℚ) 1 0).x = nearestYx [((0 : ℚ), 1)] (Vertex.mk (0 : ℚ) 1 0).y ∧
    0 ∈ (select_riverbed_vertices ([], []) [Vertex.mk (0 : ℚ) 1 0]
        [((0 : ℚ), 1)] [((2 : ℚ), 1)]).2 ∧
    0 ∉ (select_riverbed_vertices ([], []) [Vertex.mk (0 : ℚ) 1 0]
        [((0 : ℚ), 1)] [((2 : ℚ), 1)]).1 := by
  have hcb : classifyBed [((0 : ℚ), 1)] [((2 : ℚ), 1)]
      (Vertex.mk (0 : ℚ) 1 0) = false := by
    simp only [classifyBed, decide_eq_false_iff_not]
    norm_num [nearestYx, argminIdx, List.enum, List.enumFrom]
  refine ⟨?_, ?_, ?_⟩
  · norm_num [nearestYx, argminIdx, List.enum, List.enumFrom]
  · rw [select_riverbed_vertices, selectAux_snd]
    simp [List.enum, List.enumFrom, List.filter_cons, hcb]
  · rw [select_riverbed_vertices, selectAux_fst]
    simp [List.enum, List.enumFrom, List.filter_cons, hcb]

/-- C2 (amended): starting from empty index lists, a vertex index is in the
bed list iff its boundary lookups satisfy the strict inequality
`boundary_left.x < vertex.x < boundary_right.x`, and in the bank list iff
they do not; in particular a vertex whose x equals its local boundary x is
classified bank (it is in the bank list and not in the bed list), rather
than belonging to neither set. -/
theorem select_riverbed_classification (grid : List (Vertex ℚ))
    (left right : List (ℚ × ℚ)) (_hl : left ≠ []) (_hr : right ≠ [])
    (i : ℕ) (v : Vertex ℚ) (hv : grid[i]? = some v) :
    (i ∈ (select_riverbed_vertices ([], []) grid left right).1 ↔
      (nearestYx left v.y < v.x ∧ v.x < nearestYx right v.y)) ∧
    (i ∈ (select_riverbed_vertices ([], []) grid left right).2 ↔
      ¬ (nearestYx left v.y < v.x ∧ v.x < nearestYx right v.y)) ∧
    (v.x = nearestYx left v.y →
      i ∉ (select_riverbed_vertices ([], []) grid left right).1 ∧
      i ∈ (select_riverbed_vertices ([], []) grid left right).2) := by
  have hnodup : (grid.enum.map (fun p : ℕ × Vertex ℚ => p.1)).Nodup := by
    have : grid.enum.map (fun p : ℕ × Vertex ℚ => p.1) =
        List.range grid.length := by simp
    rw [this]; exact List.nodup_range _
  have hbed : i ∈ (select_riverbed_vertices ([], []) grid left right).1 ↔
      (nearestYx left v.y < v.x ∧ v.x < nearestYx right v.y) := by
    unfold select_riverbed_vertices
    rw [selectAux_fst]
    simp only [List.nil_append, List.mem_map, List.mem_filter]
    constructor
    · rintro ⟨p, ⟨hpmem, hptest⟩, hpi⟩
      have hg : grid[p.1]? = some p.2 := List.mem_enum_iff_getElem?.mp hpmem
      rw [hpi, hv] at hg
      have hveq : v = p.2 := by injection hg
      rw [← hveq] at hptest
      simp only [classifyBed, decide_eq_true_eq] at hptest
      exact hptest
    · intro hcond
      refine ⟨(i, v), ⟨List.mem_enum_iff_getElem?.mpr hv, ?_⟩, rfl⟩
      simp only [classifyBed, decide_eq_true_eq]
      exact hcond
  have hbank : i ∈ (select_riverbed_vertices ([], []) grid left right).2 ↔
      ¬ (nearestYx left v.y < v.x ∧ v.x < nearestYx right v.y) := by
    unfold select_riverbed_vertices
    rw [selectAux_snd]
    simp only [List.nil_append, List.mem_map, List.mem_filter]
    constructor
    · rintro ⟨p, ⟨hpmem, hptest⟩, hpi⟩
      have hg : grid[p.1]? = some p.2 := List.mem_enum_iff_getElem?.mp hpmem
      rw [hpi, hv] at hg
      have hveq : v = p.2 := by injection hg
      rw [← hveq] at hptest
      simp only [Bool.not_eq_true', classifyBed, decide_eq_false_iff_not]
        at hptest
      exact hptest
    · intro hcond
      refine ⟨(i, v), ⟨List.mem_enum_iff_getElem?.mpr hv, ?_⟩, rfl⟩
      simp only [Bool.not_eq_true', classifyBed, decide_eq_false_iff_not]
      exact hcond
  refine ⟨hbed, hbank, fun hx => ⟨?_, ?_⟩⟩
  · rw [hbed]
    rintro ⟨h1, _⟩
    rw [hx] at h1
    exact lt_irrefl _ h1
  · rw [hbank]
    rintro ⟨h1, _⟩
    rw [hx] at h1
    exact lt_irrefl _ h1

/-- C2 witness: a concrete strictly interior vertex `(1, 0, 0)` between left
boundary x = 0 and right boundary x = 2 is classified bed and not bank. -/
theorem select_riverbed_classification_witness :
    (([((0 : ℚ), 0)] : List (ℚ × ℚ)) ≠ [] ∧
      ([((2 : ℚ), 0)] : List (ℚ × ℚ)) ≠ [] ∧
      (([Vertex.mk (1 : ℚ) 0 0] : List (Vertex ℚ))[0]? =
        some (Vertex.mk (1 : ℚ) 0 0))) ∧
    (0 ∈ (select_riverbed_vertices ([], []) [Vertex.mk (1 : ℚ) 0 0]
        [((0 : ℚ), 0)] [((2 : ℚ), 0)]).1 ↔
      (nearestYx [((0 : ℚ), 0)] (Vertex.mk (1 : ℚ) 0 0).y <
          (Vertex.mk (1 : ℚ) 0 0).x ∧
        (Vertex.mk (1 : ℚ) 0 0).x <
          nearestYx [((2 : ℚ), 0)] (Vertex.mk (1 : ℚ) 0 0).y)) :=
  ⟨⟨by decide, by decide, by decide⟩,
    (select_riverbed_classification [Vertex.mk (1 : ℚ) 0 0]
      [((0 : ℚ), 0)] [((2 : ℚ), 0)] (by decide) (by decide) 0
      (Vertex.mk (1 : ℚ) 0 0) (by decide)).1⟩

/-- C9: the index lists are appended to, never cleared.  A second
classification pass (any grids and nonempty waterlines) appends every
in-range vertex index again, so an index classified by both passes appears
exactly twice across the accumulated bed and bank lists. -/
theorem select_riverbed_second_pass_duplicates (g1 g2 : List (Vertex ℚ))
    (l1 r1 l2 r2 : List (ℚ × ℚ)) (_hl1 : l1 ≠ []) (_hr1 : r1 ≠ [])
    (_hl2 : l2 ≠ []) (_hr2 : r2 ≠ []) (i : ℕ)
    (h1 : i < g1.length) (h2 : i < g2.length) :
    ((select_riverbed_vertices
          (select_riverbed_vertices ([], []) g1 l1 r1) g2 l2 r2).1.count i +
        (select_riverbed_vertices
          (select_riverbed_vertices ([], []) g1 l1 r1) g2 l2 r2).2.count i) =
      2 := by
  have hfirst := select_adds_once ([], []) g1 l1 r1 i h1
  have hsecond := select_adds_once
    (select_riverbed_vertices ([], []) g1 l1 r1) g2 l2 r2 i h2
  simp only [List.count_nil] at hfirst
  omega

/-- C9 witness: one vertex classified by two passes with different
waterlines appears twice across the accumulated lists. -/
theorem select_riverbed_second_pass_duplicates_witness :
    (0 < ([Vertex.mk (1 : ℚ) 0 0] : List (Vertex ℚ)).length) ∧
    ((select_riverbed_vertices
          (select_riverbed_vertices ([], []) [Vertex.mk (1 : ℚ) 0 0]
            [((0 : ℚ), 0)] [((2 : ℚ), 0)])
          [Vertex.mk (1 : ℚ) 0 0] [((5 : ℚ), 0)] [((6 : ℚ), 0)]).1.count 0 +
        (select_riverbed_vertices
          (select_riverbed_vertices ([], []) [Vertex.mk (1 : ℚ) 0 0]
            [((0 : ℚ), 0)] [((2 : ℚ), 0)])
          [Vertex.mk (1 : ℚ) 0 0] [((5 : ℚ), 0)] [((6 : ℚ), 0)]).2.count 0) =
      2 :=
  ⟨by decide,
    select_riverbed_second_pass_duplicates [Vertex.mk (1 : ℚ) 0 0]
      [Vertex.mk (1 : ℚ) 0 0] [((0 : ℚ), 0)] [((2 : ℚ), 0)]
      [((5 : ℚ), 0)] [((6 : ℚ), 0)] (by decide) (by decide) (by decide)
      (by decide) 0 (by decide) (by decide)⟩

/-- C3 counterexample: the claim asserts every surviving vertex satisfies
the same strict inequality used for classification.  The outlier test is
strict (`<` / `>`), so a vertex whose x exactly equals the left boundary
lookup survives trimming while failing `boundary_left.x < vertex.x`. -/
theorem trim_survivor_on_boundary :
    Vertex.mk (0 : ℚ) 1 0 ∈ delete_vertices_beyond_waterlines
      [Vertex.mk (0 : ℚ) 1 0] [((0 : ℚ), 1)] [((2 : ℚ), 1)] ∧
    ¬ (nearestYx [((0 : ℚ), 1)] (Vertex.mk (0 : ℚ) 1 0).y <
        (Vertex.mk (0 : ℚ) 1 0).x) := by
  constructor
  · rw [delete_vertices_beyond_waterlines, List.mem_filter]
    refine ⟨List.mem_singleton.mpr rfl, ?_⟩
    simp only [outlierVertex, Bool.not_eq_true', decide_eq_false_iff_not]
    norm_num [nearestYx, argminIdx, List.enum, List.enumFrom]
  · norm_num [nearestYx, argminIdx, List.enum, List.enumFrom]

/-- C3 (amended): trimming is monotone (`length` never grows), every
surviving vertex satisfies the NON-STRICT bounds
`boundary_left.x ≤ vertex.x ≤ boundary_right.x` at its nearest-y lookup
(vertices exactly on a boundary survive, so the strict classification
inequality can fail for them), and every vertex whose x falls outside the
closed interval `[boundary_left.x, boundary_right.x]` is removed. -/
theorem trim_monotone_bounds_removal (grid : List (Vertex ℚ))
    (left right : List (ℚ × ℚ)) (_hl : left ≠ []) (_hr : right ≠ []) :
    (delete_vertices_beyond_waterlines grid left right).length ≤
      grid.length ∧
    (∀ v ∈ delete_vertices_beyond_waterlines grid left right,
      nearestYx left v.y ≤ v.x ∧ v.x ≤ nearestYx right v.y) ∧
    (∀ v ∈ grid, (v.x < nearestYx left v.y ∨ nearestYx right v.y < v.x) →
      v ∉ delete_vertices_beyond_waterlines grid left right) := by
  refine ⟨List.length_filter_le _ _, ?_, ?_⟩
  · intro v hv
    rw [delete_vertices_beyond_waterlines, List.mem_filter] at hv
    have := hv.2
    simp only [outlierVertex, Bool.not_eq_true', decide_eq_false_iff_not,
      not_or, not_lt] at this
    exact this
  · intro v _ hout hmem
    rw [delete_vertices_beyond_waterlines, List.mem_filter] at hmem
    have := hmem.2
    simp only [outlierVertex, Bool.not_eq_true', decide_eq_false_iff_not,
      not_or, not_lt] at this
    rcases hout with h | h
    · exact absurd this.1 (not_le.mpr h)
    · exact absurd this.2 (not_le.mpr h)

/-- C3 witness: concrete trim of a three-vertex grid between boundaries
x = 0 and x = 2; the outlier at x = 3 is removed and the result length
shrinks. -/
theorem trim_monotone_bounds_removal_witness :
    (([((0 : ℚ), 0)] : List (ℚ × ℚ)) ≠ [] ∧
      ([((2 : ℚ), 0)] : List (ℚ × ℚ)) ≠ []) ∧
    (delete_vertices_beyond_waterlines
        [Vertex.mk (1 : ℚ) 0 0, Vertex.mk (3 : ℚ) 0 0]
        [((0 : ℚ), 0)] [((2 : ℚ), 0)]).length ≤
      ([Vertex.mk (1 : ℚ) 0 0, Vertex.mk (3 : ℚ) 0 0] :
        List (Vertex ℚ)).length :=
  ⟨⟨by decide, by decide⟩,
    (trim_monotone_bounds_removal
      [Vertex.mk (1 : ℚ) 0 0, Vertex.mk (3 : ℚ) 0 0]
      [((0 : ℚ), 0)] [((2 : ℚ), 0)] (by decide) (by decide)).1⟩

/-- Derivative of the smooth kernel: `6 t - 6 t^2`. -/
lemma smoothKernel_hasDerivAt (t : ℝ) :
    HasDerivAt smoothKernel (6 * t - 6 * t ^ 2) t := by
  have h2 : HasDerivAt (fun t : ℝ => t ^ 2) (2 * t) t := by
    simpa using hasDerivAt_pow 2 t
  have h3 : HasDerivAt (fun t : ℝ => t ^ 3) (3 * t ^ 2) t := by
    simpa using hasDerivAt_pow 3 t
  have h := (h2.const_mul 3).sub (h3.const_mul 2)
  have hfun : (fun t : ℝ => 3 * t ^ 2 - 2 * t ^ 3) = smoothKernel := rfl
  rw [hfun] at h
  convert h using 1
  ring

/-- Derivative of the inner reparameterization `d ↦ 1 - d / r`. -/
lemma inner_hasDerivAt (r d : ℝ) :
    HasDerivAt (fun d : ℝ => 1 - d / r) (-(1 / r)) d := by
  simpa using ((hasDerivAt_id d).div_const r).const_sub 1

/-- Derivative of the polynomial branch of the falloff. -/
lemma falloffPoly_hasDerivAt (r d : ℝ) :
    HasDerivAt (fun d : ℝ => smoothKernel (1 - d / r))
      ((6 * (1 - d / r) ^ 2 - 6 * (1 - d / r)) / r) d := by
  have h := (smoothKernel_hasDerivAt (1 - d / r)).comp d (inner_hasDerivAt r d)
  have hfun : smoothKernel ∘ (fun d : ℝ => 1 - d / r) =
      fun d : ℝ => smoothKernel (1 - d / r) := rfl
  rw [hfun] at h
  convert h using 1
  ring

/-- At the junction `d = r` the falloff has derivative `0`: the polynomial
branch has a double root at `r`, so the difference quotient is squeezed to
zero from the left, and is identically zero from the right. -/
lemma falloff_hasDerivAt_junction (r : ℝ) (hr : 0 < r) :
    HasDerivAt (fun d => falloff d r) 0 r := by
  rw [hasDerivAt_iff_tendsto_slope]
  have hr0 : (r : ℝ) ≠ 0 := ne_of_gt hr
  set q : ℝ → ℝ :=
    fun x => -((1 - x / r) * (3 - 2 * (1 - x / r))) / r with hq_def
  have hq_cont : Continuous q := by fun_prop
  have hq0 : q r = 0 := by
    rw [hq_def]
    field_simp
  have habs : Filter.Tendsto (fun x => |q x|) (nhdsWithin r {r}ᶜ)
      (nhds 0) := by
    have h1 : Filter.Tendsto q (nhds r) (nhds 0) := by
      have := hq_cont.tendsto r
      rwa [hq0] at this
    have h2 : Filter.Tendsto q (nhdsWithin r {r}ᶜ) (nhds 0) :=
      h1.mono_left nhdsWithin_le_nhds
    simpa using h2.abs
  apply squeeze_zero_norm' _ habs
  filter_upwards [self_mem_nhdsWithin] with x hx
  have hxd : x ≠ r := hx
  have hfr : falloff r r = 0 := by
    rw [falloff, if_neg (lt_irrefl r)]
  have hslope : slope (fun d => falloff d r) r x =
      (falloff x r - falloff r r) / (x - r) := by
    rw [slope_def_field]
  rcases lt_or_le x r with hxr | hxr
  · have hfx : falloff x r = smoothKernel (1 - x / r) := by
      rw [falloff, if_pos hxr]
    have heq : slope (fun d => falloff d r) r x = q x := by
      rw [hslope, hfx, hfr, hq_def]
      have hxd' : x - r ≠ 0 := sub_ne_zero.mpr hxd
      simp only [smoothKernel]
      field_simp
      ring
    rw [Real.norm_eq_abs, heq]
  · have hfx : falloff x r = 0 := by
      rw [falloff, if_neg (not_lt.mpr hxr)]
    have heq : slope (fun d => falloff d r) r x = 0 := by
      rw [hslope, hfx, hfr]
      simp
    rw [Real.norm_eq_abs, heq]
    simp [abs_nonneg]

/-- The falloff kernel has the claimed derivative everywhere. -/
lemma falloff_hasDerivAt (r : ℝ) (hr : 0 < r) (d : ℝ) :
    HasDerivAt (fun d => falloff d r) (falloffDeriv r d) d := by
  rcases lt_trichotomy d r with hd | hd | hd
  · have hev : (fun d => falloff d r) =ᶠ[nhds d]
        (fun d : ℝ => smoothKernel (1 - d / r)) := by
      filter_upwards [Iio_mem_nhds hd] with x hx
      have hx' : x < r := hx
      rw [falloff, if_pos hx']
    rw [falloffDeriv, if_pos (le_of_lt hd)]
    exact (falloffPoly_hasDerivAt r d).congr_of_eventuallyEq hev
  · have hr0 : (r : ℝ) ≠ 0 := ne_of_gt hr
    have hval : falloffDeriv r r = 0 := by
      rw [falloffDeriv, if_pos le_rfl, div_self hr0]
      norm_num
    rw [hd, hval]
    exact falloff_hasDerivAt_junction r hr
  · have hev : (fun d => falloff d r) =ᶠ[nhds d] (fun _ : ℝ => 0) := by
      filter_upwards [Ioi_mem_nhds hd] with x hx
      have hx' : r < x := hx
      rw [falloff, if_neg (not_lt.mpr (le_of_lt hx'))]
    rw [falloffDeriv, if_neg (not_le.mpr hd)]
    exact (hasDerivAt_const d (0 : ℝ)).congr_of_eventuallyEq hev

/-- The pointwise derivative of the falloff is continuous: both branches are
continuous and they agree (with value `0`) at the junction `d = r`. -/
lemma falloffDeriv_continuous (r : ℝ) (hr : 0 < r) :
    Continuous (falloffDeriv r) := by
  have hr0 : (r : ℝ) ≠ 0 := ne_of_gt hr
  have hpoly : Continuous
      (fun d : ℝ => (6 * (1 - d / r) ^ 2 - 6 * (1 - d / r)) / r) := by
    fun_prop
  have hbd : ∀ d : ℝ, d = r →
      (6 * (1 - d / r) ^ 2 - 6 * (1 - d / r)) / r = (fun _ : ℝ => (0 : ℝ)) d := by
    intro d hd
    rw [hd, div_self hr0]
    norm_num
  exact hpoly.if_le continuous_const continuous_id continuous_const hbd

/-- The falloff kernel is C1 in the distance argument. -/
lemma falloff_contDiff (r : ℝ) (hr : 0 < r) :
    ContDiff ℝ 1 (fun d => falloff d r) := by
  rw [contDiff_one_iff_deriv]
  have hderiv : deriv (fun d => falloff d r) = falloffDeriv r := by
    funext d
    exact (falloff_hasDerivAt r hr d).deriv
  refine ⟨fun d => (falloff_hasDerivAt r hr d).differentiableAt, ?_⟩
  rw [hderiv]
  exact falloffDeriv_continuous r hr

/-- Falloff weight at distance zero is exactly one. -/
lemma falloff_at_zero (r : ℝ) (hr : 0 < r) : falloff 0 r = 1 := by
  rw [falloff, if_pos hr, zero_div]
  norm_num [smoothKernel]

/-- Falloff weight at or beyond the radius is exactly zero. -/
lemma falloff_of_le (r d : ℝ) (hd : r ≤ d) : falloff d r = 0 := by
  rw [falloff, if_neg (not_lt.mpr hd)]

/-- C1: the per-vertex proportional edit issued by `dig_riverbed`
(riverbed_generator.py, lines 135-160), with the SMOOTH kernel modelled from
the spec.  For every radius `r > 0` and requested `delta_z`: the falloff is
`1` at distance `0` and `0` at every distance at or beyond the radius, and
is C1-continuous in the distance; positionally, every grid vertex is
displaced in z by `delta_z * falloff(distance, radius)`, so a vertex at
planar distance `0` from the target (in particular the target itself) is
displaced by exactly `delta_z`, and every vertex at distance at or beyond
the radius is completely unchanged. -/
theorem dig_falloff_displacement_spec (r dz : ℝ) (hr : 0 < r)
    (target : Vertex ℝ) (grid : List (Vertex ℝ)) :
    falloff 0 r = 1 ∧
    (∀ d : ℝ, r ≤ d → falloff d r = 0) ∧
    ContDiff ℝ 1 (fun d => falloff d r) ∧
    (∀ (i : ℕ) (v : Vertex ℝ), grid[i]? = some v →
      (falloff_displace grid target dz r)[i]? =
        some (Vertex.mk v.x v.y
          (v.z + dz * falloff (planarDist v target) r))) ∧
    (∀ (i : ℕ) (v : Vertex ℝ), grid[i]? = some v →
      planarDist v target = 0 →
      (falloff_displace grid target dz r)[i]? =
        some (Vertex.mk v.x v.y (v.z + dz))) ∧
    (∀ (i : ℕ) (v : Vertex ℝ), grid[i]? = some v →
      r ≤ planarDist v target →
      (falloff_displace grid target dz r)[i]? = some v) := by
  have hzero : falloff 0 r = 1 := falloff_at_zero r hr
  have hfar : ∀ d : ℝ, r ≤ d → falloff d r = 0 := fun d hd => falloff_of_le r d hd
  have hpos : ∀ (i : ℕ) (v : Vertex ℝ), grid[i]? = some v →
      (falloff_displace grid target dz r)[i]? =
        some (Vertex.mk v.x v.y
          (v.z + dz * falloff (planarDist v target) r)) := by
    intro i v hv
    rw [falloff_displace, List.getElem?_map, hv]
    rfl
  refine ⟨hzero, hfar, falloff_contDiff r hr, hpos, ?_, ?_⟩
  · intro i v hv hd
    rw [hpos i v hv, hd, hzero, mul_one]
  · intro i v hv hd
    rw [hpos i v hv, hfar _ hd, mul_zero, add_zero]

/-- C1 witness: a concrete two-vertex grid with radius `2`: the kernel
facts hold, the vertex at distance `0` moves by exactly the requested
`delta_z = -1`, and a vertex at planar distance `3 ≥ 2` is unchanged. -/
theorem dig_falloff_displacement_spec_witness :
    (0 : ℝ) < 2 ∧
    falloff 0 2 = 1 ∧
    ContDiff ℝ 1 (fun d => falloff d 2) ∧
    (planarDist (Vertex.mk (0 : ℝ) 0 5) (Vertex.mk (0 : ℝ) 0 0) = 0 →
      (falloff_displace [Vertex.mk (0 : ℝ) 0 5, Vertex.mk (3 : ℝ) 0 7]
          (Vertex.mk (0 : ℝ) 0 0) (-1) 2)[0]? =
        some (Vertex.mk (0 : ℝ) 0 (5 + (-1)))) ∧
    ((2 : ℝ) ≤ planarDist (Vertex.mk (3 : ℝ) 0 7) (Vertex.mk (0 : ℝ) 0 0) →
      (falloff_displace [Vertex.mk (0 : ℝ) 0 5, Vertex.mk (3 : ℝ) 0 7]
          (Vertex.mk (0 : ℝ) 0 0) (-1) 2)[1]? =
        some (Vertex.mk (3 : ℝ) 0 7)) := by
  have h := dig_falloff_displacement_spec 2 (-1) (by norm_num)
    (Vertex.mk (0 : ℝ) 0 0) [Vertex.mk (0 : ℝ) 0 5, Vertex.mk (3 : ℝ) 0 7]
  refine ⟨by norm_num, h.1, h.2.2.1, fun hd0 => ?_, fun hd3 => ?_⟩
  · have := h.2.2.2.2.1 0 (Vertex.mk (0 : ℝ) 0 5) rfl hd0
    simpa using this
  · exact h.2.2.2.2.2 1 (Vertex.mk (3 : ℝ) 0 7) rfl hd3

/-- Displacing a whole grid by `dz = 0` is the identity. -/
lemma falloff_displace_zero (g : List (Vertex ℝ)) (t : Vertex ℝ) (r : ℝ) :
    falloff_displace g t 0 r = g := by
  unfold falloff_displace displaceVertex
  have hfun : (fun v : Vertex ℝ =>
      Vertex.mk v.x v.y (v.z + 0 * falloff (planarDist v t) r)) =
      fun v => v := by
    funext v
    simp
  rw [hfun, List.map_id']

/-- Planar distance only depends on the x and y fields. -/
lemma planarDist_congr (a a' b b' : Vertex ℝ) (hax : a.x = a'.x)
    (hay : a.y = a'.y) (hbx : b.x = b'.x) (hby : b.y = b'.y) :
    planarDist a b = planarDist a' b' := by
  rw [planarDist, planarDist, hax, hay, hbx, hby]

/-- Planar distance between two vertices sharing x and y is zero. -/
lemma planarDist_zero_of_xy (a b : Vertex ℝ) (hx : a.x = b.x)
    (hy : a.y = b.y) : planarDist a b = 0 := by
  rw [planarDist, hx, hy]
  simp

/-- Positional view of one alignment step when the target exists. -/
lemma align_step_get_of_some (g : List (Vertex ℝ)) (r : ℝ) (j : ℕ)
    (t : Vertex ℝ) (hj : g[j]? = some t) (k : ℕ) :
    (align_step g r j)[k]? = (g[k]?).map (displaceVertex t (-t.z) r) := by
  rw [align_step, hj]
  simp only [falloff_displace, List.getElem?_map]

/-- One alignment step with a missing target index is the identity. -/
lemma align_step_of_none (g : List (Vertex ℝ)) (r : ℝ) (j : ℕ)
    (hj : g[j]? = none) : align_step g r j = g := by
  rw [align_step, hj]

/-- One alignment step preserves the number of vertices. -/
lemma align_step_length (g : List (Vertex ℝ)) (r : ℝ) (j : ℕ) :
    (align_step g r j).length = g.length := by
  rw [align_step]
  cases hj : g[j]? with
  | none => rfl
  | some t => exact List.length_map g _

/-- A vertex at planar distance at least `r` from every target visited by an
alignment pass is completely unchanged by the pass. -/
lemma align_untouched (r : ℝ) (_hr : 0 < r) :
    ∀ (b : List ℕ) (g : List (Vertex ℝ)) (k : ℕ) (vk : Vertex ℝ),
      g[k]? = some vk →
      (∀ j ∈ b, ∀ vj : Vertex ℝ, g[j]? = some vj → r ≤ planarDist vk vj) →
      (align_riverbank_edges g b r)[k]? = some vk := by
  intro b
  induction b with
  | nil =>
    intro g k vk hk _
    exact hk
  | cons j rest ih =>
    intro g k vk hk hfar
    rw [align_riverbank_edges]
    cases hj : g[j]? with
    | none =>
      rw [align_step_of_none g r j hj]
      refine ih g k vk hk ?_
      intro j' hj' vj hvj
      exact hfar j' (List.mem_cons_of_mem j hj') vj hvj
    | some t =>
      have hkt : r ≤ planarDist vk t :=
        hfar j (List.mem_cons_self j rest) t hj
      have hk1 : (align_step g r j)[k]? = some vk := by
        rw [align_step_get_of_some g r j t hj k, hk, Option.map_some']
        have hzd : displaceVertex t (-t.z) r vk = vk := by
          rw [displaceVertex, falloff_of_le r _ hkt, mul_zero, add_zero]
        rw [hzd]
      refine ih (align_step g r j) k vk hk1 ?_
      intro j' hj' vj hvj
      rw [align_step_get_of_some g r j t hj j'] at hvj
      rcases Option.map_eq_some'.mp hvj with ⟨wj, hwj, hvjw⟩
      have hdist : planarDist vk vj = planarDist vk wj := by
        apply planarDist_congr <;> first | rfl | (rw [← hvjw]; rfl)
      rw [hdist]
      exact hfar j' (List.mem_cons_of_mem j hj') wj hwj

/-- After one alignment pass in which all visited boundary vertices are
pairwise at planar distance at least `r`, every visited vertex has
elevation exactly `0`. -/
lemma align_zeroes (r : ℝ) (hr : 0 < r) :
    ∀ (b : List ℕ) (g : List (Vertex ℝ)),
      (∀ i ∈ b, i < g.length) →
      List.Pairwise (fun i j => ∀ vi vj : Vertex ℝ, g[i]? = some vi →
        g[j]? = some vj → r ≤ planarDist vi vj) b →
      ∀ i ∈ b, ∀ v : Vertex ℝ,
        (align_riverbank_edges g b r)[i]? = some v → v.z = 0 := by
  intro b
  induction b with
  | nil =>
    intro g _ _ i hi
    exact absurd hi (List.not_mem_nil i)
  | cons j rest ih =>
    intro g hvalid hpair i hi v hv
    obtain ⟨hhead, htail⟩ := List.pairwise_cons.mp hpair
    have hjlen : j < g.length := hvalid j (List.mem_cons_self j rest)
    obtain ⟨t, ht⟩ : ∃ t, g[j]? = some t := by
      exact ⟨g[j], List.getElem?_eq_getElem hjlen⟩
    rw [align_riverbank_edges] at hv
    have hg1get : ∀ k, (align_step g r j)[k]? =
        (g[k]?).map (displaceVertex t (-t.z) r) :=
      align_step_get_of_some g r j t ht
    rcases List.mem_cons.mp hi with hij | hirest
    · subst hij
      have ht1 : (align_step g r i)[i]? =
          some (Vertex.mk t.x t.y 0) := by
        rw [hg1get i, ht, Option.map_some']
        have : displaceVertex t (-t.z) r t = Vertex.mk t.x t.y 0 := by
          rw [displaceVertex, planarDist_zero_of_xy t t rfl rfl,
            falloff_at_zero r hr]
          have hz : t.z + -t.z * 1 = 0 := by ring
          rw [hz]
        rw [this]
      have huntouched : (align_riverbank_edges (align_step g r i) rest r)[i]? =
          some (Vertex.mk t.x t.y 0) := by
        refine align_untouched r hr rest (align_step g r i) i
          (Vertex.mk t.x t.y 0) ht1 ?_
        intro j' hj' vj hvj
        rw [hg1get j'] at hvj
        rcases Option.map_eq_some'.mp hvj with ⟨wj, hwj, hvjw⟩
        have hdist : planarDist (Vertex.mk t.x t.y 0) vj =
            planarDist t wj := by
          apply planarDist_congr <;> first | rfl | (rw [← hvjw]; rfl)
        rw [hdist]
        exact hhead j' hj' t wj ht hwj
      rw [huntouched] at hv
      have hveq : v = Vertex.mk t.x t.y 0 := by
        injection hv with h
        exact h.symm
      rw [hveq]
    · refine ih (align_step g r j) ?_ ?_ i hirest v hv
      · intro k hk
        rw [align_step_length]
        exact hvalid k (List.mem_cons_of_mem j hk)
      · refine htail.imp ?_
        intro a b hab vi vj hvi hvj
        rw [hg1get a] at hvi
        rw [hg1get b] at hvj
        rcases Option.map_eq_some'.mp hvi with ⟨wi, hwi, hviw⟩
        rcases Option.map_eq_some'.mp hvj with ⟨wj, hwj, hvjw⟩
        have hdist : planarDist vi vj = planarDist wi wj := by
          apply planarDist_congr <;> (first | (rw [← hviw]; rfl) | (rw [← hvjw]; rfl))
        rw [hdist]
        exact hab wi wj hwi hwj

/-- An alignment pass over boundary vertices that all already sit at
elevation zero is the identity: every issued translate has `dz = 0`. -/
lemma align_of_all_zero (r : ℝ) :
    ∀ (b : List ℕ) (g : List (Vertex ℝ)),
      (∀ i ∈ b, ∀ v : Vertex ℝ, g[i]? = some v → v.z = 0) →
      align_riverbank_edges g b r = g := by
  intro b
  induction b with
  | nil =>
    intro g _
    rfl
  | cons j rest ih =>
    intro g hzero
    rw [align_riverbank_edges]
    cases hj : g[j]? with
    | none =>
      rw [align_step_of_none g r j hj]
      refine ih g ?_
      intro k hk v hv
      exact hzero k (List.mem_cons_of_mem j hk) v hv
    | some t =>
      have htz : t.z = 0 := hzero j (List.mem_cons_self j rest) t hj
      have hstep : align_step g r j = g := by
        have hsome : align_step g r j = falloff_displace g t (-t.z) r := by
          rw [align_step, hj]
        rw [hsome, htz, neg_zero, falloff_displace_zero]
      rw [hstep]
      refine ih g ?_
      intro k hk v hv
      exact hzero k (List.mem_cons_of_mem j hk) v hv

/-- Concrete falloff value at half radius: `smoothKernel (1/2) = 1/2`. -/
lemma falloff_one_two : falloff 1 2 = 1 / 2 := by
  rw [falloff, if_pos (by norm_num : (1 : ℝ) < 2)]
  norm_num [smoothKernel]

/-- Planar distance between the two vertices of the counterexample grid is
`1`, independently of their elevations. -/
lemma planarDist_unit (z z' : ℝ) :
    planarDist (Vertex.mk (0 : ℝ) 0 z) (Vertex.mk (1 : ℝ) 0 z') = 1 := by
  have h : ((0 : ℝ) - 1) ^ 2 + ((0 : ℝ) - 0) ^ 2 = 1 := by norm_num
  rw [planarDist]
  simp only []
  rw [h, Real.sqrt_one]

/-- Planar distance in the other order is also `1`. -/
lemma planarDist_unit_rev (z z' : ℝ) :
    planarDist (Vertex.mk (1 : ℝ) 0 z) (Vertex.mk (0 : ℝ) 0 z') = 1 := by
  have h : ((1 : ℝ) - 0) ^ 2 + ((0 : ℝ) - 0) ^ 2 = 1 := by norm_num
  rw [planarDist]
  simp only []
  rw [h, Real.sqrt_one]

/-- First pass of the counterexample: aligning vertex 0 (already at z = 0)
is a no-op, then aligning vertex 1 drags vertex 0 down to `-1/2`. -/
lemma align_pass_one :
    align_riverbank_edges
        [Vertex.mk (0 : ℝ) 0 0, Vertex.mk (1 : ℝ) 0 1] [0, 1] 2 =
      [Vertex.mk (0 : ℝ) 0 (-(1 / 2)), Vertex.mk (1 : ℝ) 0 0] := by
  have s1 : align_step [Vertex.mk (0 : ℝ) 0 0, Vertex.mk (1 : ℝ) 0 1] 2 0 =
      [Vertex.mk (0 : ℝ) 0 0, Vertex.mk (1 : ℝ) 0 1] := by
    have h0 : ([Vertex.mk (0 : ℝ) 0 0, Vertex.mk (1 : ℝ) 0 1] :
        List (Vertex ℝ))[0]? = some (Vertex.mk (0 : ℝ) 0 0) := rfl
    have hsome : align_step [Vertex.mk (0 : ℝ) 0 0, Vertex.mk (1 : ℝ) 0 1] 2 0 =
        falloff_displace [Vertex.mk (0 : ℝ) 0 0, Vertex.mk (1 : ℝ) 0 1]
          (Vertex.mk (0 : ℝ) 0 0) (-(Vertex.mk (0 : ℝ) 0 0).z) 2 := by
      rw [align_step, h0]
    rw [hsome]
    have hz : -(Vertex.mk (0 : ℝ) 0 0).z = 0 := by norm_num
    rw [hz, falloff_displace_zero]
  have s2 : align_step [Vertex.mk (0 : ℝ) 0 0, Vertex.mk (1 : ℝ) 0 1] 2 1 =
      [Vertex.mk (0 : ℝ) 0 (-(1 / 2)), Vertex.mk (1 : ℝ) 0 0] := by
    have h1 : ([Vertex.mk (0 : ℝ) 0 0, Vertex.mk (1 : ℝ) 0 1] :
        List (Vertex ℝ))[1]? = some (Vertex.mk (1 : ℝ) 0 1) := rfl
    have hsome : align_step [Vertex.mk (0 : ℝ) 0 0, Vertex.mk (1 : ℝ) 0 1] 2 1 =
        falloff_displace [Vertex.mk (0 : ℝ) 0 0, Vertex.mk (1 : ℝ) 0 1]
          (Vertex.mk (1 : ℝ) 0 1) (-(Vertex.mk (1 : ℝ) 0 1).z) 2 := by
      rw [align_step, h1]
    rw [hsome, falloff_displace]
    simp only [List.map_cons, List.map_nil, displaceVertex]
    rw [planarDist_unit, planarDist_zero_of_xy _ _ rfl rfl,
      falloff_one_two, falloff_at_zero 2 (by norm_num)]
    norm_num
  show align_riverbank_edges
      (align_step [Vertex.mk (0 : ℝ) 0 0, Vertex.mk (1 : ℝ) 0 1] 2 0) [1] 2 = _
  rw [s1]
  show align_riverbank_edges
      (align_step [Vertex.mk (0 : ℝ) 0 0, Vertex.mk (1 : ℝ) 0 1] 2 1) [] 2 = _
  rw [s2]
  rfl

/-- Second pass of the counterexample: the pass moves vertex 0 from `-1/2`
to `-1/8`, a nonzero net change. -/
lemma align_pass_two :
    align_riverbank_edges
        [Vertex.mk (0 : ℝ) 0 (-(1 / 2)), Vertex.mk (1 : ℝ) 0 0] [0, 1] 2 =
      [Vertex.mk (0 : ℝ) 0 (-(1 / 8)), Vertex.mk (1 : ℝ) 0 0] := by
  have s3 : align_step
      [Vertex.mk (0 : ℝ) 0 (-(1 / 2)), Vertex.mk (1 : ℝ) 0 0] 2 0 =
      [Vertex.mk (0 : ℝ) 0 0, Vertex.mk (1 : ℝ) 0 (1 / 4)] := by
    have h0 : ([Vertex.mk (0 : ℝ) 0 (-(1 / 2)), Vertex.mk (1 : ℝ) 0 0] :
        List (Vertex ℝ))[0]? = some (Vertex.mk (0 : ℝ) 0 (-(1 / 2))) := rfl
    have hsome : align_step
        [Vertex.mk (0 : ℝ) 0 (-(1 / 2)), Vertex.mk (1 : ℝ) 0 0] 2 0 =
        falloff_displace [Vertex.mk (0 : ℝ) 0 (-(1 / 2)), Vertex.mk (1 : ℝ) 0 0]
          (Vertex.mk (0 : ℝ) 0 (-(1 / 2)))
          (-(Vertex.mk (0 : ℝ) 0 (-(1 / 2))).z) 2 := by
      rw [align_step, h0]
    rw [hsome, falloff_displace]
    simp only [List.map_cons, List.map_nil, displaceVertex]
    rw [planarDist_zero_of_xy _ _ rfl rfl, planarDist_unit_rev,
      falloff_one_two, falloff_at_zero 2 (by norm_num)]
    norm_num
  have s4 : align_step
      [Vertex.mk (0 : ℝ) 0 0, Vertex.mk (1 : ℝ) 0 (1 / 4)] 2 1 =
      [Vertex.mk (0 : ℝ) 0 (-(1 / 8)), Vertex.mk (1 : ℝ) 0 0] := by
    have h1 : ([Vertex.mk (0 : ℝ) 0 0, Vertex.mk (1 : ℝ) 0 (1 / 4)] :
        List (Vertex ℝ))[1]? = some (Vertex.mk (1 : ℝ) 0 (1 / 4)) := rfl
    have hsome : align_step
        [Vertex.mk (0 : ℝ) 0 0, Vertex.mk (1 : ℝ) 0 (1 / 4)] 2 1 =
        falloff_displace [Vertex.mk (0 : ℝ) 0 0, Vertex.mk (1 : ℝ) 0 (1 / 4)]
          (Vertex.mk (1 : ℝ) 0 (1 / 4))
          (-(Vertex.mk (1 : ℝ) 0 (1 / 4)).z) 2 := by
      rw [align_step, h1]
    rw [hsome, falloff_displace]
    simp only [List.map_cons, List.map_nil, displaceVertex]
    rw [planarDist_unit, planarDist_zero_of_xy _ _ rfl rfl,
      falloff_one_two, falloff_at_zero 2 (by norm_num)]
    norm_num
  show align_riverbank_edges
      (align_step [Vertex.mk (0 : ℝ) 0 (-(1 / 2)), Vertex.mk (1 : ℝ) 0 0] 2 0)
      [1] 2 = _
  rw [s3]
  show align_riverbank_edges
      (align_step [Vertex.mk (0 : ℝ) 0 0, Vertex.mk (1 : ℝ) 0 (1 / 4)] 2 1)
      [] 2 = _
  rw [s4]
  rfl

/-- C4 counterexample: the claim asserts that applying
`align_riverbank_edges` twice is always a no-op on the second pass.  With
two boundary vertices one unit apart, radius 2, and elevations 0 and 1, the
first pass leaves vertex 0 at `-1/2` (the later proportional edit on vertex
1 drags its neighbor back down), and the second pass moves it again to
`-1/8`: the second application produces a nonzero net change. -/
theorem align_riverbank_edges_not_idempotent :
    align_riverbank_edges
        (align_riverbank_edges
          [Vertex.mk (0 : ℝ) 0 0, Vertex.mk (1 : ℝ) 0 1] [0, 1] 2) [0, 1] 2 ≠
      align_riverbank_edges
        [Vertex.mk (0 : ℝ) 0 0, Vertex.mk (1 : ℝ) 0 1] [0, 1] 2 := by
  rw [align_pass_one, align_pass_two]
  intro h
  have h0 := List.head_eq_of_cons_eq h
  have hz : (-(1 / 8) : ℝ) = -(1 / 2) := congrArg Vertex.z h0
  norm_num at hz

/-- C4 (amended): `align_riverbank_edges` applied twice is idempotent — the
second application is a no-op — PROVIDED the visited boundary vertices are
pairwise at planar distance at least the proportional radius, so that no
alignment's falloff reaches another boundary vertex.  (Without that
separation the falloff of a later alignment re-displaces earlier-aligned
vertices, and a second pass produces a further net change.)  After the
first pass every visited vertex then sits exactly at z = 0, and every
translate of the second pass has `delta_z = 0`. -/
theorem align_riverbank_edges_idempotent_separated
    (grid : List (Vertex ℝ)) (bIdx : List ℕ) (r : ℝ) (hr : 0 < r)
    (hvalid : ∀ i ∈ bIdx, i < grid.length)
    (hsep : List.Pairwise (fun i j => ∀ vi vj : Vertex ℝ,
      grid[i]? = some vi → grid[j]? = some vj →
      r ≤ planarDist vi vj) bIdx) :
    align_riverbank_edges (align_riverbank_edges grid bIdx r) bIdx r =
      align_riverbank_edges grid bIdx r := by
  apply align_of_all_zero
  intro i hi v hv
  exact align_zeroes r hr bIdx grid hvalid hsep i hi v hv

/-- C4 witness: two boundary vertices ten units apart with radius 2: the
two alignment passes agree after the first. -/
theorem align_riverbank_edges_idempotent_separated_witness :
    ((0 : ℝ) < 2 ∧
      (∀ i ∈ [0, 1], i < ([Vertex.mk (0 : ℝ) 0 5, Vertex.mk (10 : ℝ) 0 3] :
        List (Vertex ℝ)).length) ∧
      List.Pairwise (fun i j => ∀ vi vj : Vertex ℝ,
        ([Vertex.mk (0 : ℝ) 0 5, Vertex.mk (10 : ℝ) 0 3] :
          List (Vertex ℝ))[i]? = some vi →
        ([Vertex.mk (0 : ℝ) 0 5, Vertex.mk (10 : ℝ) 0 3] :
          List (Vertex ℝ))[j]? = some vj →
        (2 : ℝ) ≤ planarDist vi vj) [0, 1]) ∧
    align_riverbank_edges
        (align_riverbank_edges
          [Vertex.mk (0 : ℝ) 0 5, Vertex.mk (10 : ℝ) 0 3] [0, 1] 2) [0, 1] 2 =
      align_riverbank_edges
        [Vertex.mk (0 : ℝ) 0 5, Vertex.mk (10 : ℝ) 0 3] [0, 1] 2 := by
  have hdist : ∀ vi vj : Vertex ℝ,
      ([Vertex.mk (0 : ℝ) 0 5, Vertex.mk (10 : ℝ) 0 3] :
        List (Vertex ℝ))[0]? = some vi →
      ([Vertex.mk (0 : ℝ) 0 5, Vertex.mk (10 : ℝ) 0 3] :
        List (Vertex ℝ))[1]? = some vj →
      (2 : ℝ) ≤ planarDist vi vj := by
    intro vi vj hvi hvj
    have hvi' : vi = Vertex.mk (0 : ℝ) 0 5 := by
      injection hvi with h
      exact h.symm
    have hvj' : vj = Vertex.mk (10 : ℝ) 0 3 := by
      injection hvj with h
      exact h.symm
    rw [hvi', hvj', planarDist]
    have h : ((0 : ℝ) - 10) ^ 2 + ((0 : ℝ) - 0) ^ 2 = 10 ^ 2 := by norm_num
    simp only []
    rw [h, Real.sqrt_sq (by norm_num : (0 : ℝ) ≤ 10)]
    norm_num
  have hpair : List.Pairwise (fun i j => ∀ vi vj : Vertex ℝ,
      ([Vertex.mk (0 : ℝ) 0 5, Vertex.mk (10 : ℝ) 0 3] :
        List (Vertex ℝ))[i]? = some vi →
      ([Vertex.mk (0 : ℝ) 0 5, Vertex.mk (10 : ℝ) 0 3] :
        List (Vertex ℝ))[j]? = some vj →
      (2 : ℝ) ≤ planarDist vi vj) [0, 1] := by
    refine List.pairwise_cons.mpr ⟨?_, ?_⟩
    · intro j hj vi vj hvi hvj
      have hj1 : j = 1 := by simpa using hj
      rw [hj1] at hvj
      exact hdist vi vj hvi hvj
    · exact List.pairwise_singleton _ _
  refine ⟨⟨by norm_num, by decide, hpair⟩, ?_⟩
  exact align_riverbank_edges_idempotent_separated
    [Vertex.mk (0 : ℝ) 0 5, Vertex.mk (10 : ℝ) 0 3] [0, 1] 2
    (by norm_num) (by decide) hpair

/-- Brightness of one synthetic pixel: the block's channel sum inside the
block, `0` outside. -/
lemma pixSum_synthetic (c : Pixel) (nv nu : ℤ) :
    pixSum (syntheticPx c) nv nu =
      if 48 ≤ nu ∧ nu ≤ 51 ∧ 48 ≤ nv ∧ nv ≤ 51 then c.r + c.g + c.b
      else 0 := by
  rw [pixSum, syntheticPx]
  split_ifs <;> simp

/-- Closed form of the inner window loop when every probed sample is in
bounds (the scan only visits interior pixels, so this is the case that
matters): the four brightness contributions are added and the count grows
by four. -/
lemma windowCol_closed (px : ℤ → ℤ → Pixel) (W H : ℕ) (nu v : ℤ)
    (acc : ℚ × ℕ) (hnu0 : 0 ≤ nu) (hnuW : nu < (W : ℤ)) (hv : 2 ≤ v)
    (hvH : v + 1 < (H : ℤ)) :
    windowCol px W H nu v acc =
      (acc.1 + pixSum px (v + -2) nu + pixSum px (v + -1) nu +
        pixSum px (v + 0) nu + pixSum px (v + 1) nu, acc.2 + 4) := by
  rw [windowCol, windowOffsets]
  simp only [List.foldl]
  rw [if_pos (show 0 ≤ nu ∧ nu < (W : ℤ) ∧ 0 ≤ v + -2 ∧ v + -2 < (H : ℤ) from
    ⟨hnu0, hnuW, by omega, by omega⟩)]
  rw [if_pos (show 0 ≤ nu ∧ nu < (W : ℤ) ∧ 0 ≤ v + -1 ∧ v + -1 < (H : ℤ) from
    ⟨hnu0, hnuW, by omega, by omega⟩)]
  rw [if_pos (show 0 ≤ nu ∧ nu < (W : ℤ) ∧ 0 ≤ v + 0 ∧ v + 0 < (H : ℤ) from
    ⟨hnu0, hnuW, by omega, by omega⟩)]
  rw [if_pos (show 0 ≤ nu ∧ nu < (W : ℤ) ∧ 0 ≤ v + 1 ∧ v + 1 < (H : ℤ) from
    ⟨hnu0, hnuW, by omega, by omega⟩)]

/-- Factorization of a block-membership brightness term into separate
column and row indicator factors. -/
lemma if_and_factor (P Q : Prop) [Decidable P] [Decidable Q] (s : ℚ) :
    (if P ∧ Q then s else 0) =
      (if P then (1 : ℚ) else 0) * (if Q then (1 : ℚ) else 0) * s := by
  split_ifs <;> simp_all

/-- Brightness of one synthetic pixel with the block condition grouped into
a column factor and a row factor. -/
lemma pixSum_synthetic_grouped (c : Pixel) (nv nu : ℤ) :
    pixSum (syntheticPx c) nv nu =
      (if 48 ≤ nu ∧ nu ≤ 51 then (1 : ℚ) else 0) *
        (if 48 ≤ nv ∧ nv ≤ 51 then (1 : ℚ) else 0) * (c.r + c.g + c.b) := by
  rw [pixSum_synthetic]
  rw [← if_and_factor]
  apply if_congr _ rfl rfl
  tauto

/-- Closed form of the inner window loop over the synthetic buffer: the
column indicator times the row overlap times the block brightness. -/
lemma windowCol_synthetic (c : Pixel) (W H : ℕ) (nu v : ℤ) (acc : ℚ × ℕ)
    (hnu0 : 0 ≤ nu) (hnuW : nu < (W : ℤ)) (hv : 2 ≤ v)
    (hvH : v + 1 < (H : ℤ)) :
    windowCol (syntheticPx c) W H nu v acc =
      (acc.1 + (if 48 ≤ nu ∧ nu ≤ 51 then (1 : ℚ) else 0) * colOv v *
        (c.r + c.g + c.b), acc.2 + 4) := by
  rw [windowCol_closed (syntheticPx c) W H nu v acc hnu0 hnuW hv hvH]
  rw [pixSum_synthetic_grouped, pixSum_synthetic_grouped,
    pixSum_synthetic_grouped, pixSum_synthetic_grouped, colOv]
  refine congrArg (fun q => (q, acc.2 + 4)) ?_
  ring

/-- Closed form of the whole 4x4 window over the synthetic buffer for an
interior scan position: brightness is the column overlap times the row
overlap times the block brightness, and the in-bounds count is `16`. -/
lemma windowCalc_synthetic (c : Pixel) (W H : ℕ) (u v : ℤ)
    (hu : 2 ≤ u) (huW : u + 1 < (W : ℤ)) (hv : 2 ≤ v)
    (hvH : v + 1 < (H : ℤ)) :
    windowCalc (syntheticPx c) W H u v =
      (colOv u * colOv v * (c.r + c.g + c.b), 16) := by
  rw [windowCalc, windowOffsets]
  simp only [List.foldl]
  rw [windowCol_synthetic c W H (u + -2) v _ (by omega) (by omega) hv hvH]
  rw [windowCol_synthetic c W H (u + -1) v _ (by omega) (by omega) hv hvH]
  rw [windowCol_synthetic c W H (u + 0) v _ (by omega) (by omega) hv hvH]
  rw [windowCol_synthetic c W H (u + 1) v _ (by omega) (by omega) hv hvH]
  refine congrArg (fun q => (q, 16)) ?_
  conv_rhs => rw [colOv]
  ring

/-- Indicator terms are at most one. -/
lemma if_ind_le_one (P : Prop) [Decidable P] :
    (if P then (1 : ℚ) else 0) ≤ 1 := by
  split_ifs <;> norm_num

/-- Indicator terms are nonnegative. -/
lemma if_ind_nonneg (P : Prop) [Decidable P] :
    (0 : ℚ) ≤ (if P then (1 : ℚ) else 0) := by
  split_ifs <;> norm_num

/-- Overlap sums are nonnegative. -/
lemma colOv_nonneg (w : ℤ) : (0 : ℚ) ≤ colOv w := by
  rw [colOv]
  have h1 := if_ind_nonneg (48 ≤ w + -2 ∧ w + -2 ≤ 51)
  have h2 := if_ind_nonneg (48 ≤ w + -1 ∧ w + -1 ≤ 51)
  have h3 := if_ind_nonneg (48 ≤ w + 0 ∧ w + 0 ≤ 51)
  have h4 := if_ind_nonneg (48 ≤ w + 1 ∧ w + 1 ≤ 51)
  linarith

/-- Overlap sums are at most four. -/
lemma colOv_le_four (w : ℤ) : colOv w ≤ 4 := by
  rw [colOv]
  have h1 := if_ind_le_one (48 ≤ w + -2 ∧ w + -2 ≤ 51)
  have h2 := if_ind_le_one (48 ≤ w + -1 ∧ w + -1 ≤ 51)
  have h3 := if_ind_le_one (48 ≤ w + 0 ∧ w + 0 ≤ 51)
  have h4 := if_ind_le_one (48 ≤ w + 1 ∧ w + 1 ≤ 51)
  linarith

/-- The window at coordinate 50 overlaps the block fully along its axis. -/
lemma colOv_fifty : colOv 50 = 4 := by
  rw [colOv]
  norm_num

/-- Away from coordinate 50 at least one of the four window offsets misses
the block, so the overlap is at most three. -/
lemma colOv_le_three_of_ne (w : ℤ) (hw : w ≠ 50) : colOv w ≤ 3 := by
  rw [colOv]
  rcases lt_or_gt_of_ne hw with h | h
  · rw [if_neg (show ¬ (48 ≤ w + -2 ∧ w + -2 ≤ 51) by omega)]
    have h2 := if_ind_le_one (48 ≤ w + -1 ∧ w + -1 ≤ 51)
    have h3 := if_ind_le_one (48 ≤ w + 0 ∧ w + 0 ≤ 51)
    have h4 := if_ind_le_one (48 ≤ w + 1 ∧ w + 1 ≤ 51)
    linarith
  · rw [if_neg (show ¬ (48 ≤ w + 1 ∧ w + 1 ≤ 51) by omega)]
    have h1 := if_ind_le_one (48 ≤ w + -2 ∧ w + -2 ≤ 51)
    have h2 := if_ind_le_one (48 ≤ w + -1 ∧ w + -1 ≤ 51)
    have h3 := if_ind_le_one (48 ≤ w + 0 ∧ w + 0 ≤ 51)
    linarith

/-- A scan step whose window mean does not strictly exceed the running
maximum (or whose window has no in-bounds samples) leaves the state
unchanged — later equal values never overwrite an earlier maximum. -/
lemma scanStep_no_update (px : ℤ → ℤ → Pixel) (W H : ℕ)
    (st : ℚ × (ℚ × ℚ)) (p : ℕ × ℕ)
    (h : 0 < (windowCalc px W H (p.2 : ℤ) (p.1 : ℤ)).2 →
      (windowCalc px W H (p.2 : ℤ) (p.1 : ℤ)).1 /
        ((windowCalc px W H (p.2 : ℤ) (p.1 : ℤ)).2 : ℚ) ≤ st.1) :
    scanStep px W H st p = st := by
  simp only [scanStep]
  split_ifs with h1 h2
  · exact absurd (h h1) (not_le.mpr h2)
  · rfl
  · rfl

/-- A whole row of no-update scan steps leaves the state unchanged. -/
lemma scanRow_no_update (px : ℤ → ℤ → Pixel) (W H : ℕ) (v : ℕ) :
    ∀ (us : List ℕ) (st : ℚ × (ℚ × ℚ)),
      (∀ u ∈ us, 0 < (windowCalc px W H (u : ℤ) (v : ℤ)).2 →
        (windowCalc px W H (u : ℤ) (v : ℤ)).1 /
          ((windowCalc px W H (u : ℤ) (v : ℤ)).2 : ℚ) ≤ st.1) →
      us.foldl (fun st u => scanStep px W H st (v, u)) st = st := by
  intro us
  induction us with
  | nil => intro st _; rfl
  | cons u rest ih =>
    intro st h
    rw [List.foldl_cons,
      scanStep_no_update px W H st (v, u) (h u (List.mem_cons_self u rest))]
    exact ih st (fun u' hu' => h u' (List.mem_cons_of_mem u hu'))

/-- Rows of no-update scan steps leave the state unchanged. -/
lemma scanRows_no_update (px : ℤ → ℤ → Pixel) (W H : ℕ) :
    ∀ (vs : List ℕ) (st : ℚ × (ℚ × ℚ)),
      (∀ v ∈ vs, ∀ u ∈ List.range' 2 (W - 4),
        0 < (windowCalc px W H (u : ℤ) (v : ℤ)).2 →
        (windowCalc px W H (u : ℤ) (v : ℤ)).1 /
          ((windowCalc px W H (u : ℤ) (v : ℤ)).2 : ℚ) ≤ st.1) →
      vs.foldl (fun st v =>
        (List.range' 2 (W - 4)).foldl
          (fun st u => scanStep px W H st (v, u)) st) st = st := by
  intro vs
  induction vs with
  | nil => intro st _; rfl
  | cons v rest ih =>
    intro st h
    rw [List.foldl_cons,
      scanRow_no_update px W H v (List.range' 2 (W - 4)) st
        (h v (List.mem_cons_self v rest))]
    exact ih st (fun v' hv' => h v' (List.mem_cons_of_mem v hv'))

/-- A scan step can only raise the running maximum to a window mean, so a
strict upper bound on both is preserved. -/
lemma scanStep_fst_lt (px : ℤ → ℤ → Pixel) (W H : ℕ)
    (st : ℚ × (ℚ × ℚ)) (p : ℕ × ℕ) (c : ℚ) (hst : st.1 < c)
    (h : 0 < (windowCalc px W H (p.2 : ℤ) (p.1 : ℤ)).2 →
      (windowCalc px W H (p.2 : ℤ) (p.1 : ℤ)).1 /
        ((windowCalc px W H (p.2 : ℤ) (p.1 : ℤ)).2 : ℚ) < c) :
    (scanStep px W H st p).1 < c := by
  simp only [scanStep]
  split_ifs with h1 h2
  · exact h h1
  · exact hst
  · exact hst

/-- Row version of the strict-bound preservation. -/
lemma scanRow_fst_lt (px : ℤ → ℤ → Pixel) (W H : ℕ) (v : ℕ) (c : ℚ) :
    ∀ (us : List ℕ) (st : ℚ × (ℚ × ℚ)), st.1 < c →
      (∀ u ∈ us, 0 < (windowCalc px W H (u : ℤ) (v : ℤ)).2 →
        (windowCalc px W H (u : ℤ) (v : ℤ)).1 /
          ((windowCalc px W H (u : ℤ) (v : ℤ)).2 : ℚ) < c) →
      (us.foldl (fun st u => scanStep px W H st (v, u)) st).1 < c := by
  intro us
  induction us with
  | nil => intro st hst _; exact hst
  | cons u rest ih =>
    intro st hst h
    rw [List.foldl_cons]
    exact ih _ (scanStep_fst_lt px W H st (v, u) c hst
      (h u (List.mem_cons_self u rest)))
      (fun u' hu' => h u' (List.mem_cons_of_mem u hu'))

/-- Multi-row version of the strict-bound preservation. -/
lemma scanRows_fst_lt (px : ℤ → ℤ → Pixel) (W H : ℕ) (c : ℚ) :
    ∀ (vs : List ℕ) (st : ℚ × (ℚ × ℚ)), st.1 < c →
      (∀ v ∈ vs, ∀ u ∈ List.range' 2 (W - 4),
        0 < (windowCalc px W H (u : ℤ) (v : ℤ)).2 →
        (windowCalc px W H (u : ℤ) (v : ℤ)).1 /
          ((windowCalc px W H (u : ℤ) (v : ℤ)).2 : ℚ) < c) →
      (vs.foldl (fun st v =>
        (List.range' 2 (W - 4)).foldl
          (fun st u => scanStep px W H st (v, u)) st) st).1 < c := by
  intro vs
  induction vs with
  | nil => intro st hst _; exact hst
  | cons v rest ih =>
    intro st hst h
    rw [List.foldl_cons]
    exact ih _ (scanRow_fst_lt px W H v c (List.range' 2 (W - 4)) st hst
      (h v (List.mem_cons_self v rest)))
      (fun v' hv' => h v' (List.mem_cons_of_mem v hv'))

/-- Scanning any list of positions none of whose window means strictly
exceed the running maximum leaves the state unchanged: the first occurrence
of a maximum wins and later ties never overwrite it. -/
lemma scanList_no_update (px : ℤ → ℤ → Pixel) (W H : ℕ) :
    ∀ (l : List (ℕ × ℕ)) (st : ℚ × (ℚ × ℚ)),
      (∀ q ∈ l, 0 < (windowCalc px W H (q.2 : ℤ) (q.1 : ℤ)).2 →
        (windowCalc px W H (q.2 : ℤ) (q.1 : ℤ)).1 /
          ((windowCalc px W H (q.2 : ℤ) (q.1 : ℤ)).2 : ℚ) ≤ st.1) →
      l.foldl (scanStep px W H) st = st := by
  intro l
  induction l with
  | nil => intro st _; rfl
  | cons q rest ih =>
    intro st h
    rw [List.foldl_cons,
      scanStep_no_update px W H st q (h q (List.mem_cons_self q rest))]
    exact ih st (fun q' hq' => h q' (List.mem_cons_of_mem q hq'))

/-- Scanning a row that contains the unique strict maximum: a prefix whose
means stay strictly below `m`, then the winning column with mean exactly
`m`, then a suffix whose means never exceed `m`.  The row fold lands on the
winner's mean and normalized UV. -/
lemma scanRow_hit (px : ℤ → ℤ → Pixel) (W H : ℕ) (v : ℕ) (m : ℚ)
    (uStar : ℕ) (us1 us2 : List ℕ) (st : ℚ × (ℚ × ℚ)) (hst : st.1 < m)
    (h1 : ∀ u ∈ us1, 0 < (windowCalc px W H (u : ℤ) (v : ℤ)).2 →
      (windowCalc px W H (u : ℤ) (v : ℤ)).1 /
        ((windowCalc px W H (u : ℤ) (v : ℤ)).2 : ℚ) < m)
    (hcount : 0 < (windowCalc px W H (uStar : ℤ) (v : ℤ)).2)
    (hmean : (windowCalc px W H (uStar : ℤ) (v : ℤ)).1 /
      ((windowCalc px W H (uStar : ℤ) (v : ℤ)).2 : ℚ) = m)
    (h2 : ∀ u ∈ us2, 0 < (windowCalc px W H (u : ℤ) (v : ℤ)).2 →
      (windowCalc px W H (u : ℤ) (v : ℤ)).1 /
        ((windowCalc px W H (u : ℤ) (v : ℤ)).2 : ℚ) ≤ m) :
    ((us1 ++ uStar :: us2).foldl
        (fun st u => scanStep px W H st (v, u)) st) =
      (m, ((uStar : ℚ) / ((W : ℚ) - 1), (v : ℚ) / ((H : ℚ) - 1))) := by
  rw [List.foldl_append, List.foldl_cons]
  set stA := us1.foldl (fun st u => scanStep px W H st (v, u)) st with hstAdef
  have hst1 : stA.1 < m := scanRow_fst_lt px W H v m us1 st hst h1
  have hstep : scanStep px W H stA (v, uStar) =
      (m, ((uStar : ℚ) / ((W : ℚ) - 1), (v : ℚ) / ((H : ℚ) - 1))) := by
    simp only [scanStep]
    rw [hmean, if_pos hcount, if_pos hst1]
  rw [hstep]
  exact scanRow_no_update px W H v us2 _ (fun u hu hc => h2 u hu hc)

/-- C6: on a buffer of width `W ≥ 53` and height `H ≥ 53` that is zero
everywhere except a single 4x4 block of equal bright pixels at rows and
columns 48-51 — the neighborhood centered at pixel `(50, 50)` in the
source's `range(-2, 2)` window convention — `find_brightest_point_in_hdri`
returns exactly UV `(50 / (W-1), 50 / (H-1))` with the block's channel sum
as the maximum mean; moreover ties are resolved in favor of the first
occurrence in raster scan order: a step whose window mean does not strictly
exceed the running maximum never overwrites the state. -/
theorem find_brightest_single_block (c : Pixel) (W H : ℕ)
    (hW : 53 ≤ W) (hH : 53 ≤ H) (hs : 0 < c.r + c.g + c.b) :
    find_brightest_point_in_hdri (syntheticPx c) W H =
      ((50 / ((W : ℚ) - 1), 50 / ((H : ℚ) - 1)), c.r + c.g + c.b) ∧
    (∀ (px : ℤ → ℤ → Pixel) (W2 H2 : ℕ) (st : ℚ × (ℚ × ℚ))
        (l : List (ℕ × ℕ)),
      (∀ q ∈ l, 0 < (windowCalc px W2 H2 (q.2 : ℤ) (q.1 : ℤ)).2 →
        (windowCalc px W2 H2 (q.2 : ℤ) (q.1 : ℤ)).1 /
          ((windowCalc px W2 H2 (q.2 : ℤ) (q.1 : ℤ)).2 : ℚ) ≤ st.1) →
      l.foldl (scanStep px W2 H2) st = st) := by
  refine ⟨?_, fun px W2 H2 st l h => scanList_no_update px W2 H2 l st h⟩
  set s := c.r + c.g + c.b with hsdef
  have hwc : ∀ u v : ℕ, 2 ≤ u → u < W - 2 → 2 ≤ v → v < H - 2 →
      windowCalc (syntheticPx c) W H (u : ℤ) (v : ℤ) =
        (colOv (u : ℤ) * colOv (v : ℤ) * s, 16) := by
    intro u v h1 h2 h3 h4
    exact windowCalc_synthetic c W H u v (by omega) (by omega) (by omega)
      (by omega)
  have hcnt : ∀ u v : ℕ, 2 ≤ u → u < W - 2 → 2 ≤ v → v < H - 2 →
      0 < (windowCalc (syntheticPx c) W H (u : ℤ) (v : ℤ)).2 := by
    intro u v h1 h2 h3 h4
    rw [hwc u v h1 h2 h3 h4]
    norm_num
  have hmean50 : (windowCalc (syntheticPx c) W H ((50 : ℕ) : ℤ)
        ((50 : ℕ) : ℤ)).1 /
      ((windowCalc (syntheticPx c) W H ((50 : ℕ) : ℤ) ((50 : ℕ) : ℤ)).2 : ℚ)
      = s := by
    rw [hwc 50 50 (by norm_num) (by omega) (by norm_num) (by omega)]
    have hcast : ((50 : ℕ) : ℤ) = (50 : ℤ) := by norm_num
    rw [hcast, colOv_fifty]
    norm_num
  have hmeanOff : ∀ u v : ℕ, 2 ≤ u → u < W - 2 → 2 ≤ v → v < H - 2 →
      ¬(u = 50 ∧ v = 50) →
      (windowCalc (syntheticPx c) W H (u : ℤ) (v : ℤ)).1 /
        ((windowCalc (syntheticPx c) W H (u : ℤ) (v : ℤ)).2 : ℚ) < s := by
    intro u v h1 h2 h3 h4 hne
    rw [hwc u v h1 h2 h3 h4]
    dsimp only
    have hprod : colOv (u : ℤ) * colOv (v : ℤ) ≤ 12 := by
      rcases Decidable.not_and_iff_or_not.mp hne with hu50 | hv50
      · calc colOv (u : ℤ) * colOv (v : ℤ) ≤ 3 * colOv (v : ℤ) :=
            mul_le_mul_of_nonneg_right
              (colOv_le_three_of_ne _ (by omega)) (colOv_nonneg _)
          _ ≤ 3 * 4 :=
            mul_le_mul_of_nonneg_left (colOv_le_four _) (by norm_num)
          _ = 12 := by norm_num
      · calc colOv (u : ℤ) * colOv (v : ℤ) ≤ colOv (u : ℤ) * 3 :=
            mul_le_mul_of_nonneg_left
              (colOv_le_three_of_ne _ (by omega)) (colOv_nonneg _)
          _ ≤ 4 * 3 :=
            mul_le_mul_of_nonneg_right (colOv_le_four _) (by norm_num)
          _ = 12 := by norm_num
    have hle : colOv (u : ℤ) * colOv (v : ℤ) * s ≤ 12 * s :=
      mul_le_mul_of_nonneg_right hprod (le_of_lt hs)
    have hc16 : (((16 : ℕ)) : ℚ) = 16 := by norm_num
    rw [hc16]
    calc colOv (u : ℤ) * colOv (v : ℤ) * s / 16 ≤ 12 * s / 16 :=
        (div_le_div_iff_of_pos_right (by norm_num)).mpr hle
      _ < s := by linarith
  have humem : ∀ u ∈ List.range' 2 (W - 4), 2 ≤ u ∧ u < W - 2 := by
    intro u hu
    have := List.mem_range'_1.mp hu
    omega
  have hWsplit : List.range' 2 (W - 4) =
      List.range' 2 48 ++ 50 :: List.range' 51 (W - 53) := by
    have h1 : List.range' 50 (W - 53 + 1) = 50 :: List.range' 51 (W - 53) :=
      List.range'_succ 50 (W - 53) 1
    have h2 := List.range'_append_1 2 48 (W - 53 + 1)
    norm_num at h2
    rw [show W - 4 = W - 53 + 1 + 48 by omega, ← h2, h1]
  have hHsplit : List.range' 2 (H - 4) =
      List.range' 2 48 ++ 50 :: List.range' 51 (H - 53) := by
    have h1 : List.range' 50 (H - 53 + 1) = 50 :: List.range' 51 (H - 53) :=
      List.range'_succ 50 (H - 53) 1
    have h2 := List.range'_append_1 2 48 (H - 53 + 1)
    norm_num at h2
    rw [show H - 4 = H - 53 + 1 + 48 by omega, ← h2, h1]
  have hscan : scanRows (syntheticPx c) W H =
      (s, ((50 : ℚ) / ((W : ℚ) - 1), (50 : ℚ) / ((H : ℚ) - 1))) := by
    rw [scanRows, hHsplit, List.foldl_append, List.foldl_cons]
    set stB := (List.range' 2 48).foldl
      (fun st v => (List.range' 2 (W - 4)).foldl
        (fun st u => scanStep (syntheticPx c) W H st (v, u)) st)
      ((-1 : ℚ), ((0 : ℚ), (0 : ℚ))) with hstBdef
    have hstB : stB.1 < s := by
      refine scanRows_fst_lt (syntheticPx c) W H s (List.range' 2 48) _
        (by norm_num; linarith) ?_
      intro v hv u hu hcount
      have hvb := List.mem_range'_1.mp hv
      have hub := humem u hu
      exact hmeanOff u v hub.1 hub.2 (by omega) (by omega)
        (fun hand => by omega)
    have hrow50 : (List.range' 2 (W - 4)).foldl
        (fun st u => scanStep (syntheticPx c) W H st (50, u)) stB =
        (s, ((50 : ℚ) / ((W : ℚ) - 1), (50 : ℚ) / ((H : ℚ) - 1))) := by
      rw [hWsplit]
      refine scanRow_hit (syntheticPx c) W H 50 s 50 (List.range' 2 48)
        (List.range' 51 (W - 53)) stB hstB ?_ ?_ ?_ ?_
      · intro u hu hcount
        have hub := List.mem_range'_1.mp hu
        exact hmeanOff u 50 (by omega) (by omega) (by norm_num) (by omega)
          (fun hand => by omega)
      · exact hcnt 50 50 (by norm_num) (by omega) (by norm_num) (by omega)
      · exact hmean50
      · intro u hu hcount
        have hub := List.mem_range'_1.mp hu
        exact le_of_lt (hmeanOff u 50 (by omega) (by omega) (by norm_num)
          (by omega) (fun hand => by omega))
    rw [hrow50]
    refine scanRows_no_update (syntheticPx c) W H
      (List.range' 51 (H - 53)) _ ?_
    intro v hv u hu hcount
    have hvb := List.mem_range'_1.mp hv
    have hub := humem u hu
    exact le_of_lt (hmeanOff u v hub.1 hub.2 (by omega) (by omega)
      (fun hand => by omega))
  simp only [find_brightest_point_in_hdri]
  rw [hscan, if_pos (by exact hs)]

/-- C6 witness: the smallest buffer the claim covers, `W = H = 53`, with a
block of pure red pixels of brightness 1. -/
theorem find_brightest_single_block_witness :
    ((53 : ℕ) ≤ 53 ∧
      (0 : ℚ) < (Pixel.mk 1 0 0 0).r + (Pixel.mk 1 0 0 0).g +
        (Pixel.mk 1 0 0 0).b) ∧
    find_brightest_point_in_hdri (syntheticPx (Pixel.mk 1 0 0 0)) 53 53 =
      ((50 / ((53 : ℚ) - 1), 50 / ((53 : ℚ) - 1)),
        (Pixel.mk 1 0 0 0).r + (Pixel.mk 1 0 0 0).g + (Pixel.mk 1 0 0 0).b) :=
  ⟨⟨by norm_num, by norm_num⟩,
    (find_brightest_single_block (Pixel.mk 1 0 0 0) 53 53 (by norm_num)
      (by norm_num) (by norm_num)).1⟩

/-- A scan step cannot raise the running maximum above a bound that also
dominates the window mean. -/
lemma scanStep_fst_le (px : ℤ → ℤ → Pixel) (W H : ℕ)
    (st : ℚ × (ℚ × ℚ)) (p : ℕ × ℕ) (c : ℚ) (hst : st.1 ≤ c)
    (h : 0 < (windowCalc px W H (p.2 : ℤ) (p.1 : ℤ)).2 →
      (windowCalc px W H (p.2 : ℤ) (p.1 : ℤ)).1 /
        ((windowCalc px W H (p.2 : ℤ) (p.1 : ℤ)).2 : ℚ) ≤ c) :
    (scanStep px W H st p).1 ≤ c := by
  simp only [scanStep]
  split_ifs with h1 h2
  · exact h h1
  · exact hst
  · exact hst

/-- Row version of the non-strict bound preservation. -/
lemma scanRow_fst_le (px : ℤ → ℤ → Pixel) (W H : ℕ) (v : ℕ) (c : ℚ) :
    ∀ (us : List ℕ) (st : ℚ × (ℚ × ℚ)), st.1 ≤ c →
      (∀ u ∈ us, 0 < (windowCalc px W H (u : ℤ) (v : ℤ)).2 →
        (windowCalc px W H (u : ℤ) (v : ℤ)).1 /
          ((windowCalc px W H (u : ℤ) (v : ℤ)).2 : ℚ) ≤ c) →
      (us.foldl (fun st u => scanStep px W H st (v, u)) st).1 ≤ c := by
  intro us
  induction us with
  | nil => intro st hst _; exact hst
  | cons u rest ih =>
    intro st hst h
    rw [List.foldl_cons]
    exact ih _ (scanStep_fst_le px W H st (v, u) c hst
      (h u (List.mem_cons_self u rest)))
      (fun u' hu' => h u' (List.mem_cons_of_mem u hu'))

/-- Multi-row version of the non-strict bound preservation. -/
lemma scanRows_fst_le (px : ℤ → ℤ → Pixel) (W H : ℕ) (c : ℚ) :
    ∀ (vs : List ℕ) (st : ℚ × (ℚ × ℚ)), st.1 ≤ c →
      (∀ v ∈ vs, ∀ u ∈ List.range' 2 (W - 4),
        0 < (windowCalc px W H (u : ℤ) (v : ℤ)).2 →
        (windowCalc px W H (u : ℤ) (v : ℤ)).1 /
          ((windowCalc px W H (u : ℤ) (v : ℤ)).2 : ℚ) ≤ c) →
      (vs.foldl (fun st v =>
        (List.range' 2 (W - 4)).foldl
          (fun st u => scanStep px W H st (v, u)) st) st).1 ≤ c := by
  intro vs
  induction vs with
  | nil => intro st hst _; exact hst
  | cons v rest ih =>
    intro st hst h
    rw [List.foldl_cons]
    exact ih _ (scanRow_fst_le px W H v c (List.range' 2 (W - 4)) st hst
      (h v (List.mem_cons_self v rest)))
      (fun v' hv' => h v' (List.mem_cons_of_mem v hv'))

/-- C10: on any buffer in which no interior 4x4 window has a strictly
positive mean brightness, the scan's running maximum never becomes
positive, so `find_brightest_point_in_hdri` does not fail and does not
return the first scanned pixel: it takes the warning branch (the final
`max_brightness > 0` test is false) and returns the default UV
`(0.5, 0.5)` with brightness value `0`. -/
theorem find_brightest_all_dark (px : ℤ → ℤ → Pixel) (W H : ℕ)
    (hdark : ∀ v ∈ List.range' 2 (H - 4), ∀ u ∈ List.range' 2 (W - 4),
      0 < (windowCalc px W H (u : ℤ) (v : ℤ)).2 →
      (windowCalc px W H (u : ℤ) (v : ℤ)).1 /
        ((windowCalc px W H (u : ℤ) (v : ℤ)).2 : ℚ) ≤ 0) :
    find_brightest_point_in_hdri px W H = ((1 / 2, 1 / 2), 0) ∧
    ¬ (0 < (scanRows px W H).1) := by
  have hle : (scanRows px W H).1 ≤ 0 := by
    rw [scanRows]
    exact scanRows_fst_le px W H 0 (List.range' 2 (H - 4)) _ (by norm_num)
      hdark
  constructor
  · simp only [find_brightest_point_in_hdri]
    rw [if_neg (not_lt.mpr hle)]
  · exact not_lt.mpr hle

/-- The inner window loop accumulates no brightness over the zero buffer. -/
lemma windowCol_zero_fst (W H : ℕ) (nu v : ℤ) (acc : ℚ × ℕ) :
    (windowCol zeroPx W H nu v acc).1 = acc.1 := by
  rw [windowCol, windowOffsets]
  simp only [List.foldl]
  split_ifs <;> simp [pixSum, zeroPx]

/-- The whole window has zero brightness over the zero buffer. -/
lemma windowCalc_zero_fst (W H : ℕ) (u v : ℤ) :
    (windowCalc zeroPx W H u v).1 = 0 := by
  rw [windowCalc, windowOffsets]
  simp only [List.foldl]
  rw [windowCol_zero_fst, windowCol_zero_fst, windowCol_zero_fst,
    windowCol_zero_fst]

/-- C10 witness: an all-zero 8x8 buffer satisfies the darkness hypothesis,
and the analyzer returns the default UV with brightness 0. -/
theorem find_brightest_all_dark_witness :
    (∀ v ∈ List.range' 2 (8 - 4), ∀ u ∈ List.range' 2 (8 - 4),
      0 < (windowCalc zeroPx 8 8 (u : ℤ) (v : ℤ)).2 →
      (windowCalc zeroPx 8 8 (u : ℤ) (v : ℤ)).1 /
        ((windowCalc zeroPx 8 8 (u : ℤ) (v : ℤ)).2 : ℚ) ≤ 0) ∧
    find_brightest_point_in_hdri zeroPx 8 8 = ((1 / 2, 1 / 2), 0) := by
  have hdark : ∀ v ∈ List.range' 2 (8 - 4), ∀ u ∈ List.range' 2 (8 - 4),
      0 < (windowCalc zeroPx 8 8 (u : ℤ) (v : ℤ)).2 →
      (windowCalc zeroPx 8 8 (u : ℤ) (v : ℤ)).1 /
        ((windowCalc zeroPx 8 8 (u : ℤ) (v : ℤ)).2 : ℚ) ≤ 0 := by
    intro v _ u _ _
    rw [windowCalc_zero_fst]
    simp
  exact ⟨hdark, (find_brightest_all_dark zeroPx 8 8 hdark).1⟩

end BlenderRiver
